import Mathlib

/-!
# A shallow embedding of `mymalloc.c`

The allocator keeps a singly linked chain of `block_t` headers inside raw
memory.  Memory is modelled as a byte map over natural-number addresses, the
header fields are little-endian machine words at fixed offsets (LP64 layout:
`size` at +0, `next` at +8, `free` at +16, four bytes of padding), and
`size_t` / pointer arithmetic is taken modulo `2 ^ 64`.  `NULL` is address `0`.

Memory is a total map: a load or store outside the memory the process
obtained does not fault in the model. The predicate `obtained` tells such
addresses apart, and the theorems about accesses outside a mapping name the
address.

Assertion failures, and loops that do not finish within the supplied fuel,
are explicit results.  The operating system (program break, list of
mappings) is part of the state, and what `sbrk` / `mmap` answer to the one
backend request a call can make is a parameter of that call.
-/

namespace MyMalloc

/-- Byte-addressed memory; a cell is read modulo 256. -/
abbrev Mem := Nat → Nat

/-- Number of values of `size_t` and of a pointer. -/
def WORD : Nat := 18446744073709551616

/-- The constant `BLOCK_SIZE`, that is `sizeof(block_t)` under LP64. -/
def BLOCK_SIZE : Nat := 24

/-- The value of `(void*) -1`, returned by a failing `sbrk` or `mmap`. -/
def FAILED : Nat := 18446744073709551615

def read8 (m : Mem) (a : Nat) : Nat := m a % 256

/-- Little-endian 32-bit load. -/
def read32 (m : Mem) (a : Nat) : Nat :=
  read8 m a + 256 * (read8 m (a + 1) + 256 * (read8 m (a + 2) + 256 * read8 m (a + 3)))

/-- Little-endian 64-bit load. -/
def read64 (m : Mem) (a : Nat) : Nat :=
  read8 m a + 256 * (read8 m (a + 1) + 256 * (read8 m (a + 2) + 256 * (read8 m (a + 3)
    + 256 * (read8 m (a + 4) + 256 * (read8 m (a + 5) + 256 * (read8 m (a + 6)
    + 256 * read8 m (a + 7)))))))

/-- Store of `n` little-endian bytes of `v` at `a`. -/
def writeN (n : Nat) (m : Mem) (a v : Nat) : Mem :=
  fun x => if a ≤ x ∧ x < a + n then (v / 256 ^ (x - a)) % 256 else m x

def write32 (m : Mem) (a v : Nat) : Mem := writeN 4 m a v

def write64 (m : Mem) (a v : Nat) : Mem := writeN 8 m a v

/-- The call `memset(p, 0, n)`. Memory is total: the store also returns when
part of `[p, p + n)` is not memory the process obtained (see `obtained`),
where the real call faults or overwrites foreign memory. -/
def memset0 (m : Mem) (p n : Nat) : Mem :=
  fun x => if p ≤ x ∧ x < p + n then 0 else m x

/-- Field `block->size`. -/
def hdr_size (m : Mem) (b : Nat) : Nat := read64 m b

/-- Field `block->next`. -/
def hdr_next (m : Mem) (b : Nat) : Nat := read64 m (b + 8)

/-- Field `block->free`. -/
def hdr_free (m : Mem) (b : Nat) : Nat := read32 m (b + 16)

def set_size (m : Mem) (b v : Nat) : Mem := write64 m b v

def set_next (m : Mem) (b v : Nat) : Mem := write64 m (b + 8) v

def set_free (m : Mem) (b v : Nat) : Mem := write32 m (b + 16) v

/-- Outcome of a call: a value, a failed `assert`, or a loop that is still
running when the fuel is spent. -/
inductive Res (α : Type) where
  | ok (a : α) : Res α
  | abort : Res α
  | diverge : Res α

/-- Process state: memory, the global `base_ptr`, the program break, and the
anonymous mappings obtained so far as (start, requested length). -/
structure State where
  mem : Mem
  base_ptr : Nat
  brk : Nat
  maps : List (Nat × Nat)

/-- What the operating system answers to the backend request of one call:
whether `sbrk` succeeds, and the pointer `mmap` returns (`FAILED` on error). -/
structure OS where
  sbrk_ok : Bool
  mmap_ret : Nat

/-- The `while` loop of `get_next_fit_block`. -/
def get_next_fit_loop : Nat → Mem → Nat → Nat → Res Nat
  | 0, _, _, _ => Res.diverge
  | fuel + 1, m, block, s =>
    if block = 0 then Res.ok 0
    else if hdr_size m block ≥ s ∧ hdr_free m block = 1 then Res.ok block
    else get_next_fit_loop fuel m (hdr_next m block) s

def get_next_fit_block (fuel : Nat) (st : State) (s : Nat) : Res Nat :=
  if s = 0 then Res.abort
  else get_next_fit_loop fuel st.mem st.base_ptr s

/-- The `while` loop of `add_block_at_end`: the first block whose `next` is
`NULL`. -/
def add_block_loop : Nat → Mem → Nat → Res Nat
  | 0, _, _ => Res.diverge
  | fuel + 1, m, temp_block =>
    if hdr_next m temp_block ≠ 0 then add_block_loop fuel m (hdr_next m temp_block)
    else Res.ok temp_block

def add_block_at_end (fuel : Nat) (st : State) (block : Nat) : Res State :=
  if st.base_ptr = 0 then Res.ok { st with base_ptr := block }
  else
    match add_block_loop fuel st.mem st.base_ptr with
    | Res.ok temp_block => Res.ok { st with mem := set_next st.mem temp_block block }
    | Res.abort => Res.abort
    | Res.diverge => Res.diverge

/-- The function `create_small_block`: the returned pointer and the new state. -/
def create_small_block (os : OS) (st : State) (s : Nat) : Res (Nat × State) :=
  if s = 0 then Res.abort
  else
    let small_block := st.brk
    let mem_allocation := if os.sbrk_ok then st.brk else FAILED
    let st1 : State :=
      if os.sbrk_ok then { st with brk := (st.brk + (s + BLOCK_SIZE) % WORD) % WORD } else st
    if mem_allocation = FAILED then Res.ok (0, st1)
    else
      let m1 := set_size st1.mem small_block s
      let m2 := set_next m1 small_block 0
      let m3 := set_free m2 small_block 0
      Res.ok (small_block, { st1 with mem := m3 })

/-- The function `create_big_block`; `page` is `sysconf(_SC_PAGE_SIZE)`. -/
def create_big_block (page : Nat) (os : OS) (st : State) (s : Nat) : Res (Nat × State) :=
  if s = 0 then Res.abort
  else
    let mem_allocation := os.mmap_ret
    if mem_allocation = FAILED then Res.ok (0, st)
    else
      let st1 : State :=
        { st with maps := st.maps ++ [(mem_allocation, (BLOCK_SIZE + s) % WORD)] }
      let remaining_size := ((BLOCK_SIZE + s) % WORD) % page
      let remaining := if remaining_size ≤ BLOCK_SIZE
        then (mem_allocation + (BLOCK_SIZE + s) % WORD) % WORD else 0
      let m1 := if remaining_size ≤ BLOCK_SIZE
        then set_free (set_next (set_size st1.mem remaining remaining_size) remaining 0)
          remaining 1
        else st1.mem
      let big_block := mem_allocation
      let m2 := set_size m1 big_block ((s + BLOCK_SIZE) % WORD)
      let m3 := set_next m2 big_block remaining
      let m4 := set_free m3 big_block 0
      Res.ok (big_block, { st1 with mem := m4 })

/-- Shared tail of the miss path of `mymalloc`: `assert(block != NULL)`,
then `add_block_at_end(block)`, then `return block + 1`. -/
def finish_new (fuel : Nat) (r : Res (Nat × State)) : Res (Nat × State) :=
  match r with
  | Res.ok (block, st1) =>
    if block = 0 then Res.abort
    else
      match add_block_at_end fuel st1 block with
      | Res.ok st2 => Res.ok ((block + BLOCK_SIZE) % WORD, st2)
      | Res.abort => Res.abort
      | Res.diverge => Res.diverge
  | Res.abort => Res.abort
  | Res.diverge => Res.diverge

def mymalloc (page : Nat) (os : OS) (fuel : Nat) (st : State) (s : Nat) : Res (Nat × State) :=
  if s = 0 then Res.abort
  else if st.base_ptr ≠ 0 then
    match get_next_fit_block fuel st s with
    | Res.ok block =>
      if block = 0 then
        finish_new fuel
          (if (BLOCK_SIZE + s) % WORD ≥ page then create_big_block page os st s
           else create_small_block os st s)
      else Res.ok ((block + BLOCK_SIZE) % WORD, { st with mem := set_free st.mem block 0 })
    | Res.abort => Res.abort
    | Res.diverge => Res.diverge
  else
    match create_small_block os st s with
    | Res.ok (block, st1) =>
      if block = 0 then Res.abort
      else Res.ok ((block + BLOCK_SIZE) % WORD, { st1 with base_ptr := block })
    | Res.abort => Res.abort
    | Res.diverge => Res.diverge

def mycalloc (page : Nat) (os : OS) (fuel : Nat) (st : State) (nmemb s : Nat) :
    Res (Nat × State) :=
  if ¬ (nmemb > 0 ∧ s > 0) then Res.abort
  else
    let total := (nmemb * s) % WORD
    if ¬ (total > 0) then Res.abort
    else
      match mymalloc page os fuel st total with
      | Res.ok (block_ptr, st1) =>
        if block_ptr = 0 then Res.ok (0, st1)
        else Res.ok (block_ptr, { st1 with mem := memset0 st1.mem block_ptr total })
      | Res.abort => Res.abort
      | Res.diverge => Res.diverge

def myfree (st : State) (ptr : Nat) : Res State :=
  let free_block := (ptr + WORD - BLOCK_SIZE) % WORD
  if free_block = 0 then Res.abort
  else if hdr_free st.mem free_block ≠ 0 then Res.abort
  else Res.ok { st with mem := set_free st.mem free_block 1 }

/-- The allocator before its first call: zeroed memory, `base_ptr == NULL`. -/
def empty (brk : Nat) : State :=
  { mem := fun _ => 0, base_ptr := 0, brk := brk, maps := [] }

/-- Following `next` from `a` through the blocks `pre`, in this order, leads
to `b`. -/
def Path (m : Mem) : Nat → List Nat → Nat → Prop
  | a, [], b => a = b
  | a, x :: pre, b => a = x ∧ x ≠ 0 ∧ Path m (hdr_next m x) pre b

/-- The blocks met when following `next` from `a` until `NULL`: the chain
rooted at `a` is finite and is exactly `l`. -/
def Chain (m : Mem) (a : Nat) (l : List Nat) : Prop := Path m a l 0

/-- The headers at `a` and `b` occupy disjoint byte ranges. -/
def Sep (a b : Nat) : Prop := a + BLOCK_SIZE ≤ b ∨ b + BLOCK_SIZE ≤ a

/-- The three stores that format a header: `size`, then `next`, then `free`. -/
def format_header (m : Mem) (b sz nx fr : Nat) : Mem :=
  set_free (set_next (set_size m b sz) b nx) b fr

instance (a b : Nat) : Decidable (Sep a b) := by
  unfold Sep; infer_instance

/-- Pointers and the program break are 64-bit values. -/
def Typed (os : OS) (st : State) : Prop :=
  st.base_ptr < WORD ∧ st.brk < WORD ∧ os.mmap_ret < WORD

/-- The header addresses that the backend serving a miss of `mymalloc(s)`
formats: the block at the old program break, or the block at the start of the
mapping followed by the remainder block when one is carved. -/
def new_headers (page : Nat) (os : OS) (st : State) (s : Nat) : List Nat :=
  if st.base_ptr ≠ 0 ∧ (BLOCK_SIZE + s) % WORD ≥ page then
    if ((BLOCK_SIZE + s) % WORD) % page ≤ BLOCK_SIZE
    then [os.mmap_ret, (os.mmap_ret + (BLOCK_SIZE + s) % WORD) % WORD]
    else [os.mmap_ret]
  else [st.brk]

/-- The backend hands out memory that is not in use: the headers it formats
are apart from each other and from every header of the chain `l`. -/
def FreshFor (page : Nat) (os : OS) (st : State) (s : Nat) (l : List Nat) : Prop :=
  (new_headers page os st s).Pairwise Sep ∧
    ∀ h ∈ new_headers page os st s, ∀ x ∈ l, Sep x h

/-- The test `block->size >= s && block->free == 1` of the fit search. -/
def Fits (m : Mem) (s b : Nat) : Prop := hdr_size m b ≥ s ∧ hdr_free m b = 1

instance (m : Mem) (s b : Nat) : Decidable (Fits m s b) := by
  unfold Fits; infer_instance

instance Path.dec (m : Mem) : ∀ (a : Nat) (pre : List Nat) (b : Nat), Decidable (Path m a pre b)
  | a, [], b => inferInstanceAs (Decidable (a = b))
  | a, x :: pre, b =>
    @instDecidableAnd (a = x) _ _ (@instDecidableAnd (x ≠ 0) _ _ (Path.dec m _ pre b))

instance (m : Mem) (a : Nat) (l : List Nat) : Decidable (Chain m a l) := Path.dec m a l 0

instance (os : OS) (st : State) : Decidable (Typed os st) := by
  unfold Typed; infer_instance

instance (page : Nat) (os : OS) (st : State) (s : Nat) (l : List Nat) :
    Decidable (FreshFor page os st s l) := by
  unfold FreshFor; infer_instance

/-- State left by a call that returned a pointer (the empty allocator otherwise). -/
def state_of (r : Res (Nat × State)) : State :=
  match r with
  | Res.ok (_, st) => st
  | Res.abort => empty 0
  | Res.diverge => empty 0

/-- Pointer returned by a call (`NULL` when it did not return). -/
def ptr_of (r : Res (Nat × State)) : Nat :=
  match r with
  | Res.ok (p, _) => p
  | Res.abort => 0
  | Res.diverge => 0

/-- State left by `myfree` when it returned (the empty allocator otherwise). -/
def freed (r : Res State) : State :=
  match r with
  | Res.ok st => st
  | Res.abort => empty 0
  | Res.diverge => empty 0

/-- An operating system whose `sbrk` succeeds and whose `mmap` answers with
address `1048576`. -/
def os_demo : OS := { sbrk_ok := true, mmap_ret := 1048576 }

/-- An operating system out of memory: `sbrk` and `mmap` both fail. -/
def os_fail : OS := { sbrk_ok := false, mmap_ret := FAILED }

/-- Scenario A: `a = mymalloc(100); p = mymalloc(16)` on the empty allocator
with the break at `65536`, then `myfree(a)`. -/
def scnA1 : Res (Nat × State) := mymalloc 4096 os_demo 10 (empty 65536) 100

def scnA2 : Res (Nat × State) := mymalloc 4096 os_demo 10 (state_of scnA1) 16

def scnA3 : State := freed (myfree (state_of scnA2) (ptr_of scnA1))

/-- Scenario B: `mymalloc(8)` on the empty allocator (break at `65536`), then
`b = mymalloc(4080)`, served by a mapping at `1048576` with a remainder block
at `1052680`, then `r = mymalloc(8)`, then `myfree(b)`, then `mymalloc(4100)`. -/
def scnB1 : Res (Nat × State) := mymalloc 4096 os_demo 10 (empty 65536) 8

def scnB2 : Res (Nat × State) := mymalloc 4096 os_demo 10 (state_of scnB1) 4080

def scnB3 : Res (Nat × State) := mymalloc 4096 os_demo 10 (state_of scnB2) 8

def scnB4 : State := freed (myfree (state_of scnB3) (ptr_of scnB2))

def scnB5 : Res (Nat × State) := mymalloc 4096 os_demo 10 scnB4 4100

/-- An operating system whose `mmap` answers with address `1052672`, one page
above the answer of `os_demo`. -/
def os_high : OS := { sbrk_ok := true, mmap_ret := 1052672 }

/-- End of the mapping that `mmap(start, len)` creates: the length is rounded
up to whole pages. -/
def mapping_end (page start len : Nat) : Nat := start + ((len + page - 1) / page) * page

/-- Scenario C: `mymalloc(8)` on the empty allocator, then `mymalloc(4072)`,
whose mapping of `4096` bytes is exactly one page. -/
def scnC2 : Res (Nat × State) := mymalloc 4096 os_demo 10 (state_of scnB1) 4072

/-- Scenario D: `mymalloc(8)`, then `mymalloc(4072)` served by a one-page
mapping at `1052672`, then `mymalloc(4072)` served by a one-page mapping at
`1048576`, directly below the first. -/
def scnD1 : Res (Nat × State) := mymalloc 4096 os_high 10 (state_of scnB1) 4072

def scnD2 : Res (Nat × State) := mymalloc 4096 os_demo 10 (state_of scnD1) 4072

/-- Scenario E: scenario B up to `r = mymalloc(8)`, then `mymalloc(16)`, which
appends a block behind the remainder block, then `myfree(b)`, then
`mycalloc(1, 4100)`. -/
def scnE1 : Res (Nat × State) := mymalloc 4096 os_demo 10 (state_of scnB3) 16

def scnE2 : State := freed (myfree (state_of scnE1) (ptr_of scnB2))

def scnE3 : Res (Nat × State) := mycalloc 4096 os_demo 10 scnE2 1 4100

/-- State of scenario D inside its third call, after `create_big_block(4072)`
has returned and before `add_block_at_end` runs. -/
def scnDpre : State := state_of (create_big_block 4096 os_demo (state_of scnD1) 4072)

/-- Scenario F: `mymalloc(8)` on the empty allocator, then
`q = mymalloc(2^64 - 24)`, for which `s + BLOCK_SIZE` wraps to 0, then
`mymalloc(8)`. -/
def scnF1 : Res (Nat × State) :=
  mymalloc 4096 os_demo 10 (state_of scnB1) 18446744073709551592

def scnF2 : Res (Nat × State) := mymalloc 4096 os_demo 10 (state_of scnF1) 8

/-- Scenario G: `mymalloc(8)` on the empty allocator, then `b = mymalloc(8162)`,
served by a two-page mapping at `1048576` without a remainder block, then
`myfree(b)`, then `mycalloc(1, 8186)`. -/
def scnG2 : Res (Nat × State) := mymalloc 4096 os_demo 10 (state_of scnB1) 8162

def scnG3 : State := freed (myfree (state_of scnG2) (ptr_of scnG2))

def scnG4 : Res (Nat × State) := mycalloc 4096 os_demo 10 scnG3 1 8186

/-- Address `a` is memory the process obtained from the backends: it lies
below the program break or inside a recorded mapping, whose length is rounded
up to whole pages. Memory is a total map, so a load or store at an address
that is not obtained returns in the model; in the process it is a fault or an
access to foreign memory. -/
def obtained (page : Nat) (st : State) (a : Nat) : Prop :=
  a < st.brk ∨ ∃ r ∈ st.maps, r.1 ≤ a ∧ a < mapping_end page r.1 r.2

instance (page : Nat) (st : State) (a : Nat) : Decidable (obtained page st a) := by
  unfold obtained; infer_instance

/-! ## Loads and stores -/

theorem writeN_outside (n : Nat) (m : Mem) (a v x : Nat) (h : x < a ∨ a + n ≤ x) :
    writeN n m a v x = m x := by
  unfold writeN
  rw [if_neg]
  omega

theorem read64_congr (m m1 : Mem) (a : Nat)
    (h : ∀ x, a ≤ x → x < a + 8 → m1 x % 256 = m x % 256) : read64 m1 a = read64 m a := by
  unfold read64 read8
  rw [h a (by omega) (by omega), h (a + 1) (by omega) (by omega),
    h (a + 2) (by omega) (by omega), h (a + 3) (by omega) (by omega),
    h (a + 4) (by omega) (by omega), h (a + 5) (by omega) (by omega),
    h (a + 6) (by omega) (by omega), h (a + 7) (by omega) (by omega)]

theorem read32_congr (m m1 : Mem) (a : Nat)
    (h : ∀ x, a ≤ x → x < a + 4 → m1 x % 256 = m x % 256) : read32 m1 a = read32 m a := by
  unfold read32 read8
  rw [h a (by omega) (by omega), h (a + 1) (by omega) (by omega),
    h (a + 2) (by omega) (by omega), h (a + 3) (by omega) (by omega)]

theorem read64_write64 (m : Mem) (a v : Nat) :
    read64 (write64 m a v) a = v % WORD := by
  unfold read64 read8 write64 writeN WORD
  simp
  omega

theorem read32_write32 (m : Mem) (a v : Nat) :
    read32 (write32 m a v) a = v % 4294967296 := by
  unfold read32 read8 write32 writeN
  simp
  omega

theorem read64_lt (m : Mem) (a : Nat) : read64 m a < WORD := by
  unfold read64 read8 WORD
  omega

theorem hdr_size_congr (m m1 : Mem) (b : Nat)
    (h : ∀ x, b ≤ x → x < b + 8 → m1 x % 256 = m x % 256) :
    hdr_size m1 b = hdr_size m b := read64_congr m m1 b h

theorem hdr_next_congr (m m1 : Mem) (b : Nat)
    (h : ∀ x, b + 8 ≤ x → x < b + 16 → m1 x % 256 = m x % 256) :
    hdr_next m1 b = hdr_next m b :=
  read64_congr m m1 (b + 8) (fun x h1 h2 => h x h1 (by omega))

theorem hdr_free_congr (m m1 : Mem) (b : Nat)
    (h : ∀ x, b + 16 ≤ x → x < b + 20 → m1 x % 256 = m x % 256) :
    hdr_free m1 b = hdr_free m b :=
  read32_congr m m1 (b + 16) (fun x h1 h2 => h x h1 (by omega))

theorem hdr_size_set_size (m : Mem) (b v : Nat) :
    hdr_size (set_size m b v) b = v % WORD := read64_write64 m b v

theorem hdr_next_set_next (m : Mem) (b v : Nat) :
    hdr_next (set_next m b v) b = v % WORD := read64_write64 m (b + 8) v

theorem hdr_free_set_free (m : Mem) (b v : Nat) :
    hdr_free (set_free m b v) b = v % 4294967296 := read32_write32 m (b + 16) v

theorem set_size_outside (m : Mem) (b v x : Nat) (h : x < b ∨ b + 8 ≤ x) :
    set_size m b v x = m x := writeN_outside 8 m b v x h

theorem set_next_outside (m : Mem) (b v x : Nat) (h : x < b + 8 ∨ b + 16 ≤ x) :
    set_next m b v x = m x := writeN_outside 8 m (b + 8) v x (by omega)

theorem set_free_outside (m : Mem) (b v x : Nat) (h : x < b + 16 ∨ b + 20 ≤ x) :
    set_free m b v x = m x := writeN_outside 4 m (b + 16) v x (by omega)

theorem format_header_outside (m : Mem) (b sz nx fr x : Nat) (h : x < b ∨ b + 24 ≤ x) :
    format_header m b sz nx fr x = m x := by
  unfold format_header
  rw [set_free_outside _ _ _ _ (by omega), set_next_outside _ _ _ _ (by omega),
    set_size_outside _ _ _ _ (by omega)]

theorem format_header_size (m : Mem) (b sz nx fr : Nat) :
    hdr_size (format_header m b sz nx fr) b = sz % WORD := by
  unfold format_header
  rw [hdr_size_congr (set_size m b sz) _ b (fun x h1 h2 => by
    rw [set_free_outside _ _ _ _ (by omega), set_next_outside _ _ _ _ (by omega)])]
  exact hdr_size_set_size m b sz

theorem format_header_next (m : Mem) (b sz nx fr : Nat) :
    hdr_next (format_header m b sz nx fr) b = nx % WORD := by
  unfold format_header
  rw [hdr_next_congr (set_next (set_size m b sz) b nx) _ b (fun x h1 h2 => by
    rw [set_free_outside _ _ _ _ (by omega)])]
  exact hdr_next_set_next _ b nx

theorem format_header_free (m : Mem) (b sz nx fr : Nat) :
    hdr_free (format_header m b sz nx fr) b = fr % 4294967296 := by
  unfold format_header
  exact hdr_free_set_free _ b fr

theorem set_free_zero_bytes (m : Mem) (b x : Nat) (h1 : b + 16 ≤ x) (h2 : x < b + 20) :
    set_free m b 0 x = 0 := by
  unfold set_free write32 writeN
  rw [if_pos ⟨h1, by omega⟩]
  simp

theorem hdr_free_of_zero_bytes (m : Mem) (b : Nat)
    (h : ∀ x, b + 16 ≤ x → x < b + 20 → m x = 0) : hdr_free m b = 0 := by
  unfold hdr_free read32 read8
  rw [h (b + 16) (by omega) (by omega), h (b + 16 + 1) (by omega) (by omega),
    h (b + 16 + 2) (by omega) (by omega), h (b + 16 + 3) (by omega) (by omega)]

/-- Fields of a header that a store confined to `[lo, hi)` cannot reach. -/
theorem fields_of_far (m m1 : Mem) (c lo hi : Nat)
    (h : ∀ x, x < lo ∨ hi ≤ x → m1 x = m x) (hc : c + 24 ≤ lo ∨ hi ≤ c) :
    hdr_size m1 c = hdr_size m c ∧ hdr_next m1 c = hdr_next m c ∧
      hdr_free m1 c = hdr_free m c :=
  ⟨hdr_size_congr _ _ c (fun x h1 h2 => by rw [h x (by omega)]),
    hdr_next_congr _ _ c (fun x h1 h2 => by rw [h x (by omega)]),
    hdr_free_congr _ _ c (fun x h1 h2 => by rw [h x (by omega)])⟩

/-! ## Paths and the two loops -/

theorem Path.ne_zero {m : Mem} : ∀ {a : Nat} {pre : List Nat} {b : Nat},
    Path m a pre b → ∀ x ∈ pre, x ≠ 0
  | _, [], _, _, x, hx => by cases hx
  | _, y :: pre, _, h, x, hx => by
    obtain ⟨_, h2, h3⟩ := h
    rcases List.mem_cons.1 hx with rfl | hx
    · exact h2
    · exact Path.ne_zero h3 x hx

theorem Path.congr {m m1 : Mem} : ∀ {a : Nat} {pre : List Nat} {b : Nat},
    (∀ x ∈ pre, hdr_next m1 x = hdr_next m x) → Path m a pre b → Path m1 a pre b
  | _, [], _, _, h => h
  | _, y :: pre, _, hn, h => by
    obtain ⟨h1, h2, h3⟩ := h
    refine ⟨h1, h2, ?_⟩
    rw [hn y (List.mem_cons_self _ _)]
    exact Path.congr (fun x hx => hn x (List.mem_cons_of_mem _ hx)) h3

theorem Path.append {m : Mem} : ∀ {a : Nat} {pre : List Nat} {b : Nat} {l : List Nat} {c : Nat},
    Path m a pre b → Path m b l c → Path m a (pre ++ l) c
  | _, [], _, _, _, h, h1 => by
    have h0 : _ = _ := h
    subst h0
    exact h1
  | _, y :: pre, _, _, _, h, h1 => by
    obtain ⟨h2, h3, h4⟩ := h
    exact ⟨h2, h3, Path.append h4 h1⟩

theorem Path.split {m : Mem} : ∀ {a : Nat} {pre : List Nat} {l : List Nat} {c : Nat},
    Path m a (pre ++ l) c → ∃ b, Path m a pre b ∧ Path m b l c
  | a, [], _, _, h => ⟨a, rfl, h⟩
  | _, y :: pre, _, _, h => by
    obtain ⟨h2, h3, h4⟩ := h
    obtain ⟨b, h5, h6⟩ := Path.split h4
    exact ⟨b, ⟨h2, h3, h5⟩, h6⟩

theorem Path.unique {m : Mem} : ∀ {a : Nat} {l l1 : List Nat},
    Path m a l 0 → Path m a l1 0 → l = l1
  | _, [], [], _, _ => rfl
  | _, [], y :: l1, h, h1 => by
    have h0 : _ = _ := h
    exact absurd (h0 ▸ h1.1).symm h1.2.1
  | _, y :: l, [], h, h1 => by
    have h0 : _ = _ := h1
    exact absurd (h0 ▸ h.1).symm h.2.1
  | _, y :: l, z :: l1, h, h1 => by
    have hyz : y = z := h.1.symm.trans h1.1
    subst hyz
    rw [Path.unique h.2.2 h1.2.2]

theorem get_next_fit_loop_skip {m : Mem} {s : Nat} : ∀ {a : Nat} {pre : List Nat} {b : Nat}
    (k : Nat), Path m a pre b → (∀ x ∈ pre, ¬ Fits m s x) →
    get_next_fit_loop (pre.length + k) m a s = get_next_fit_loop k m b s
  | _, [], _, k, h, _ => by
    have h0 : _ = _ := h
    subst h0
    simp
  | a, y :: pre, _, k, h, hn => by
    obtain ⟨h2, h3, h4⟩ := h
    have hy : ¬ (hdr_size m y ≥ s ∧ hdr_free m y = 1) := hn _ (List.mem_cons_self _ _)
    have e : (y :: pre).length + k = (pre.length + k) + 1 := by simp; omega
    rw [e, h2, get_next_fit_loop, if_neg h3, if_neg hy]
    exact get_next_fit_loop_skip k h4 (fun x hx => hn x (List.mem_cons_of_mem _ hx))

theorem split_first_fit (m : Mem) (s : Nat) : ∀ l : List Nat,
    (∀ x ∈ l, ¬ Fits m s x) ∨
      ∃ pre b post, l = pre ++ b :: post ∧ Fits m s b ∧ ∀ x ∈ pre, ¬ Fits m s x
  | [] => Or.inl (fun _ hx => by cases hx)
  | y :: l => by
    by_cases hy : Fits m s y
    · exact Or.inr ⟨[], y, l, rfl, hy, fun _ hx => by cases hx⟩
    · rcases split_first_fit m s l with h | ⟨pre, b, post, h1, h2, h3⟩
      · left
        intro x hx
        rcases List.mem_cons.1 hx with rfl | hx
        · exact hy
        · exact h x hx
      · right
        refine ⟨y :: pre, b, post, by rw [h1]; rfl, h2, ?_⟩
        intro x hx
        rcases List.mem_cons.1 hx with rfl | hx
        · exact hy
        · exact h3 x hx

theorem get_next_fit_loop_miss {m : Mem} {s a : Nat} {l : List Nat} {fuel : Nat}
    (hc : Chain m a l) (hn : ∀ x ∈ l, ¬ Fits m s x) (hf : l.length < fuel) :
    get_next_fit_loop fuel m a s = Res.ok 0 := by
  obtain ⟨k, rfl⟩ : ∃ k, fuel = l.length + (k + 1) := ⟨fuel - l.length - 1, by omega⟩
  rw [get_next_fit_loop_skip (k + 1) hc hn, get_next_fit_loop, if_pos rfl]

theorem get_next_fit_loop_hit {m : Mem} {s a b : Nat} {pre : List Nat} {fuel : Nat}
    (hp : Path m a pre b) (hn : ∀ x ∈ pre, ¬ Fits m s x) (hb : b ≠ 0) (hfit : Fits m s b)
    (hf : pre.length < fuel) :
    get_next_fit_loop fuel m a s = Res.ok b := by
  obtain ⟨k, rfl⟩ : ∃ k, fuel = pre.length + (k + 1) := ⟨fuel - pre.length - 1, by omega⟩
  have hfit1 : hdr_size m b ≥ s ∧ hdr_free m b = 1 := hfit
  rw [get_next_fit_loop_skip (k + 1) hp hn, get_next_fit_loop, if_neg hb, if_pos hfit1]

theorem add_block_loop_last {m : Mem} : ∀ {a : Nat} {l : List Nat} {fuel : Nat}
    (hne : l ≠ []), Chain m a l → l.length ≤ fuel →
    add_block_loop fuel m a = Res.ok (l.getLast hne)
  | _, [], _, hne, _, _ => absurd rfl hne
  | a, [y], fuel, _, h, hf => by
    obtain ⟨h2, _, h4⟩ := h
    have h0 : hdr_next m y = 0 := h4
    obtain ⟨k, rfl⟩ : ∃ k, fuel = k + 1 := ⟨fuel - 1, by simp at hf; omega⟩
    rw [h2, add_block_loop, if_neg (by simp [h0])]
    rfl
  | a, y :: z :: l, fuel, _, h, hf => by
    obtain ⟨h2, _, h4⟩ := h
    obtain ⟨k, rfl⟩ : ∃ k, fuel = k + 1 := ⟨fuel - 1, by simp at hf; omega⟩
    have hz : hdr_next m y ≠ 0 := by rw [h4.1]; exact h4.2.1
    rw [h2, add_block_loop, if_pos hz, List.getLast_cons (by simp)]
    exact add_block_loop_last (by simp) h4 (by simp at hf ⊢; omega)

theorem set_next_fields_self (m : Mem) (t v : Nat) :
    hdr_size (set_next m t v) t = hdr_size m t ∧ hdr_free (set_next m t v) t = hdr_free m t :=
  ⟨hdr_size_congr _ _ t (fun x h1 h2 => by rw [set_next_outside _ _ _ _ (by omega)]),
    hdr_free_congr _ _ t (fun x h1 h2 => by rw [set_next_outside _ _ _ _ (by omega)])⟩

theorem set_next_fields_sep (m : Mem) (t v c : Nat) (h : Sep c t) :
    hdr_size (set_next m t v) c = hdr_size m c ∧ hdr_next (set_next m t v) c = hdr_next m c ∧
      hdr_free (set_next m t v) c = hdr_free m c := by
  unfold Sep BLOCK_SIZE at h
  exact fields_of_far m _ c (t + 8) (t + 16)
    (fun x hx => set_next_outside m t v x hx) (by omega)

/-- Linking a block `B`, which heads its own chain `B :: rest`, behind the last
block `t` of the chain `init ++ [t]`. -/
theorem append_chain_aux {m1 : Mem} {base B t : Nat} {init rest : List Nat}
    (hc : Chain m1 base (init ++ [t])) (hsep : (init ++ [t]).Pairwise Sep)
    (hnew : Chain m1 B (B :: rest)) (hfresh : ∀ h ∈ B :: rest, Sep h t) (hBW : B < WORD) :
    Chain (set_next m1 t B) base ((init ++ [t]) ++ B :: rest) ∧
    (∀ x ∈ init ++ [t], hdr_size (set_next m1 t B) x = hdr_size m1 x ∧
      hdr_free (set_next m1 t B) x = hdr_free m1 x) := by
  have hinit : ∀ x ∈ init, Sep x t := fun x hx =>
    (List.pairwise_append.1 hsep).2.2 x hx t (List.mem_singleton.2 rfl)
  obtain ⟨t1, hp1, hp2⟩ := Path.split hc
  have ht1 : t1 = t := hp2.1
  subst ht1
  have ht0 : t1 ≠ 0 := hp2.2.1
  have hp1a : Path (set_next m1 t1 B) base init t1 :=
    Path.congr (fun x hx => (set_next_fields_sep m1 t1 B x (hinit x hx)).2.1) hp1
  have hlink : Path (set_next m1 t1 B) t1 [t1] B := by
    refine ⟨rfl, ht0, ?_⟩
    show hdr_next (set_next m1 t1 B) t1 = B
    rw [hdr_next_set_next, Nat.mod_eq_of_lt hBW]
  have hnew1 : Path (set_next m1 t1 B) B (B :: rest) 0 :=
    Path.congr (fun x hx => (set_next_fields_sep m1 t1 B x (hfresh x hx)).2.1) hnew
  refine ⟨Path.append (Path.append hp1a hlink) hnew1, ?_⟩
  intro x hx
  rcases List.mem_append.1 hx with hx | hx
  · have := set_next_fields_sep m1 t1 B x (hinit x hx)
    exact ⟨this.1, this.2.2⟩
  · rw [List.mem_singleton.1 hx]
    exact set_next_fields_self m1 t1 B

theorem append_chain {m1 : Mem} {base B : Nat} {l rest : List Nat} (hne : l ≠ [])
    (hc : Chain m1 base l) (hsep : l.Pairwise Sep) (hnew : Chain m1 B (B :: rest))
    (hfresh : ∀ x ∈ l, ∀ h ∈ B :: rest, Sep x h) (hBW : B < WORD) :
    Chain (set_next m1 (l.getLast hne) B) base (l ++ B :: rest) ∧
    (∀ x ∈ l, hdr_size (set_next m1 (l.getLast hne) B) x = hdr_size m1 x ∧
      hdr_free (set_next m1 (l.getLast hne) B) x = hdr_free m1 x) := by
  have hl : l.dropLast ++ [l.getLast hne] = l := List.dropLast_append_getLast hne
  have hlast : l.getLast hne ∈ l := List.getLast_mem hne
  have hsymm : ∀ h ∈ B :: rest, Sep h (l.getLast hne) := by
    intro h hh
    have := hfresh _ hlast h hh
    unfold Sep at this ⊢
    omega
  have := @append_chain_aux m1 base B (l.getLast hne) l.dropLast rest
    (by rw [hl]; exact hc) (by rw [hl]; exact hsep) hnew hsymm hBW
  rw [hl] at this
  exact this

/-! ## The fit search -/

/-- C4: on a finite chain `l` rooted at `base_ptr` and for `s > 0`,
`get_next_fit_block` returns (given fuel for the whole chain) the earliest
block of the chain with `free == 1` and `size >= s`: every block before it
fails the test; it returns `NULL` exactly when no block of the chain passes.
The search only reads the state. -/
theorem get_next_fit_block_first_fit (fuel : Nat) (st : State) (s : Nat) (l : List Nat)
    (hc : Chain st.mem st.base_ptr l) (hs : 0 < s) (hf : l.length < fuel) :
    ∃ b, get_next_fit_block fuel st s = Res.ok b ∧
      (b = 0 ↔ ∀ x ∈ l, ¬ Fits st.mem s x) ∧
      (b ≠ 0 → ∃ pre post, l = pre ++ b :: post ∧ Fits st.mem s b ∧
        ∀ x ∈ pre, ¬ Fits st.mem s x) := by
  unfold get_next_fit_block
  rw [if_neg (by omega)]
  rcases split_first_fit st.mem s l with hn | ⟨pre, b, post, h1, h2, h3⟩
  · exact ⟨0, get_next_fit_loop_miss hc hn hf, ⟨fun _ => hn, fun _ => rfl⟩, fun h => absurd rfl h⟩
  · subst h1
    obtain ⟨c, hp, hq⟩ := Path.split hc
    have hcb : c = b := hq.1
    subst hcb
    have hb : c ≠ 0 := hq.2.1
    refine ⟨c, get_next_fit_loop_hit hp h3 hb h2 (by simp at hf; omega), ?_, ?_⟩
    · constructor
      · intro h0; exact absurd h0 hb
      · intro hall; exact absurd h2 (hall c (by simp))
    · intro _
      exact ⟨pre, post, rfl, h2, h3⟩

theorem get_next_fit_block_first_fit_witness :
    ∃ b, get_next_fit_block 5 scnA3 16 = Res.ok b ∧
      (b = 0 ↔ ∀ x ∈ [65536, 65660], ¬ Fits scnA3.mem 16 x) ∧
      (b ≠ 0 → ∃ pre post, [65536, 65660] = pre ++ b :: post ∧ Fits scnA3.mem 16 b ∧
        ∀ x ∈ pre, ¬ Fits scnA3.mem 16 x) :=
  get_next_fit_block_first_fit 5 scnA3 16 [65536, 65660] (by decide) (by decide) (by decide)

/-! ## Release -/

theorem myfree_effect (st : State) (p b : Nat)
    (hb : b = (p + WORD - BLOCK_SIZE) % WORD) (hb0 : b ≠ 0)
    (halloc : hdr_free st.mem b = 0) :
    ∃ st1, myfree st p = Res.ok st1 ∧
      hdr_free st1.mem b = 1 ∧ hdr_size st1.mem b = hdr_size st.mem b ∧
      hdr_next st1.mem b = hdr_next st.mem b ∧
      st1.base_ptr = st.base_ptr ∧ st1.brk = st.brk ∧ st1.maps = st.maps ∧
      (∀ a, a < b + 16 ∨ b + 20 ≤ a → st1.mem a = st.mem a) ∧
      (∀ c, Sep c b → hdr_size st1.mem c = hdr_size st.mem c ∧
        hdr_next st1.mem c = hdr_next st.mem c ∧ hdr_free st1.mem c = hdr_free st.mem c) ∧
      (∀ l, Chain st.mem st.base_ptr l → (∀ c ∈ l, c = b ∨ Sep c b) →
        Chain st1.mem st1.base_ptr l) := by
  have hout : ∀ a, a < b + 16 ∨ b + 20 ≤ a → set_free st.mem b 1 a = st.mem a :=
    fun a ha => set_free_outside st.mem b 1 a ha
  have hsz : hdr_size (set_free st.mem b 1) b = hdr_size st.mem b :=
    hdr_size_congr _ _ b (fun x _ h2 => by rw [hout x (by omega)])
  have hnx : hdr_next (set_free st.mem b 1) b = hdr_next st.mem b :=
    hdr_next_congr _ _ b (fun x _ h2 => by rw [hout x (by omega)])
  have hsep : ∀ c, Sep c b → hdr_size (set_free st.mem b 1) c = hdr_size st.mem c ∧
      hdr_next (set_free st.mem b 1) c = hdr_next st.mem c ∧
      hdr_free (set_free st.mem b 1) c = hdr_free st.mem c := by
    intro c hc
    unfold Sep BLOCK_SIZE at hc
    exact ⟨hdr_size_congr _ _ c (fun x h1 h2 => by rw [hout x (by omega)]),
      hdr_next_congr _ _ c (fun x h1 h2 => by rw [hout x (by omega)]),
      hdr_free_congr _ _ c (fun x h1 h2 => by rw [hout x (by omega)])⟩
  refine ⟨{ st with mem := set_free st.mem b 1 }, ?_, ?_, hsz, hnx, rfl, rfl, rfl, hout, hsep, ?_⟩
  · unfold myfree
    simp only [← hb]
    rw [if_neg hb0, if_neg (by simp [halloc])]
  · show hdr_free (set_free st.mem b 1) b = 1
    rw [hdr_free_set_free]
  · intro l hl hlb
    refine Path.congr ?_ hl
    intro x hx
    rcases hlb x hx with rfl | hs
    · exact hnx
    · exact (hsep x hs).2.1

theorem block_of_ptr (b : Nat) (h : b < WORD) :
    ((b + BLOCK_SIZE) % WORD + WORD - BLOCK_SIZE) % WORD = b := by
  unfold WORD BLOCK_SIZE at *
  omega

theorem Path.start_ne_zero {m : Mem} {a : Nat} {pre : List Nat} {b : Nat}
    (h : Path m a pre b) (hb : b ≠ 0) : a ≠ 0 := by
  cases pre with
  | nil => have h0 : a = b := h; rw [h0]; exact hb
  | cons x pre => rw [h.1]; exact h.2.1

theorem Path.end_lt {m : Mem} : ∀ {a : Nat} {pre : List Nat} {b : Nat},
    Path m a pre b → a < WORD → b < WORD
  | _, [], _, h, ha => by
    have h0 : _ = _ := h
    rw [← h0]; exact ha
  | _, _ :: _, _, h, _ => Path.end_lt h.2.2 (read64_lt _ _)

/-- Releasing the block `B` that ends a non-fitting prefix of the chain and
asking again for at most its size hands `B` out again. -/
theorem reuse_after_free (page : Nat) (os : OS) (fuel : Nat) (st : State) (m B : Nat)
    (pre : List Nat) (hpath : Path st.mem st.base_ptr pre B) (hB0 : B ≠ 0) (hBW : B < WORD)
    (hsep : ∀ x ∈ pre, Sep x B) (hnf : ∀ x ∈ pre, ¬ Fits st.mem m x)
    (halloc : hdr_free st.mem B = 0) (hsize : hdr_size st.mem B ≥ m) (hm : 0 < m)
    (hfuel : pre.length < fuel) :
    myfree st ((B + BLOCK_SIZE) % WORD) = Res.ok { st with mem := set_free st.mem B 1 } ∧
    mymalloc page os fuel { st with mem := set_free st.mem B 1 } m =
      Res.ok ((B + BLOCK_SIZE) % WORD,
        { st with mem := set_free (set_free st.mem B 1) B 0 }) := by
  obtain ⟨st1, h1, h2, h3, _, _, _, _, _, h9, _⟩ :=
    myfree_effect st ((B + BLOCK_SIZE) % WORD) B (block_of_ptr B hBW).symm hB0 halloc
  have hst1 : st1 = { st with mem := set_free st.mem B 1 } := by
    unfold myfree at h1
    rw [block_of_ptr B hBW, if_neg hB0, if_neg (by simp [halloc])] at h1
    cases h1
    rfl
  subst hst1
  refine ⟨h1, ?_⟩
  have hp1 : Path (set_free st.mem B 1) st.base_ptr pre B :=
    Path.congr (fun x hx => (h9 x (hsep x hx)).2.1) hpath
  have hnf1 : ∀ x ∈ pre, ¬ Fits (set_free st.mem B 1) m x := by
    intro x hx hfit
    apply hnf x hx
    obtain ⟨e1, _, e3⟩ := h9 x (hsep x hx)
    unfold Fits at hfit ⊢
    rw [← e1, ← e3]
    exact hfit
  have hfitB : Fits (set_free st.mem B 1) m B := by
    unfold Fits
    exact ⟨by rw [h3]; exact hsize, h2⟩
  have hloop := get_next_fit_loop_hit hp1 hnf1 hB0 hfitB hfuel
  have hbase : st.base_ptr ≠ 0 := Path.start_ne_zero hpath hB0
  have hm0 : m ≠ 0 := by omega
  simp [mymalloc, hm0, hbase, get_next_fit_block, hloop, hB0]

/-- C2 (amended): let `p` be the pointer of a block `b` of the chain that is
allocated and whose size is at least `n` (as `mymalloc(n)` left it), with the
headers before it in the chain apart from its own, and let `0 < m <= n`. If no
free block of size at least `m` precedes `b` in chain order, then `myfree(p)`
immediately followed by `mymalloc(m)` returns `p`. -/
theorem first_fit_reuse (page : Nat) (os : OS) (fuel : Nat) (st : State) (n m p b : Nat)
    (pre : List Nat) (hp : p = (b + BLOCK_SIZE) % WORD) (hb0 : b ≠ 0) (hbw : b < WORD)
    (hpath : Path st.mem st.base_ptr pre b) (hsep : ∀ x ∈ pre, Sep x b)
    (halloc : hdr_free st.mem b = 0) (hsize : hdr_size st.mem b ≥ n)
    (hm : 0 < m) (hmn : m ≤ n)
    (hnone : ∀ x ∈ pre, ¬ (hdr_free st.mem x = 1 ∧ hdr_size st.mem x ≥ m))
    (hfuel : pre.length < fuel) :
    ∃ st1 st2, myfree st p = Res.ok st1 ∧ mymalloc page os fuel st1 m = Res.ok (p, st2) := by
  have hnf : ∀ x ∈ pre, ¬ Fits st.mem m x := fun x hx hfit => hnone x hx ⟨hfit.2, hfit.1⟩
  obtain ⟨h1, h2⟩ := reuse_after_free page os fuel st m b pre hpath hb0 hbw hsep hnf halloc
    (by omega) hm hfuel
  rw [← hp] at h1 h2
  exact ⟨_, _, h1, h2⟩

theorem first_fit_reuse_witness :
    ∃ st1 st2, myfree (state_of scnA2) 65684 = Res.ok st1 ∧
      mymalloc 4096 os_demo 10 st1 12 = Res.ok (65684, st2) :=
  first_fit_reuse 4096 os_demo 10 (state_of scnA2) 16 12 65684 65660 [65536]
    (by decide) (by decide) (by decide) (by decide) (by decide) (by decide) (by decide)
    (by decide) (by decide) (by decide) (by decide)

/-- C2 (counterexample): after `a = mymalloc(100); p = mymalloc(16); myfree(a)`
the pointer `p` is still allocated and the only block before it is free with
size 100, which is not smaller than `n = 16`; yet `myfree(p)` followed by
`mymalloc(16)` returns `a`, not `p`. -/
theorem first_fit_reuse_larger_block_first :
    ptr_of scnA1 = 65560 ∧ ptr_of scnA2 = 65684 ∧
    Chain scnA3.mem scnA3.base_ptr [65536, 65660] ∧
    hdr_free scnA3.mem 65660 = 0 ∧ hdr_size scnA3.mem 65660 = 16 ∧
    (∀ x ∈ [65536], ¬ (hdr_free scnA3.mem x = 1 ∧ hdr_size scnA3.mem x < 16 ∧
      hdr_size scnA3.mem x ≥ 16)) ∧
    ptr_of (mymalloc 4096 os_demo 10 (freed (myfree scnA3 65684)) 16) = 65560 ∧
    ptr_of (mymalloc 4096 os_demo 10 (freed (myfree scnA3 65684)) 16) ≠ 65684 := by
  decide

/-- C1 (the code at the failing input): after `mymalloc(8); b = mymalloc(4080);
r = mymalloc(8); myfree(b)` the block of `r` is the remainder block carved at
`1052680`, still allocated and in the chain. `mymalloc(4100)` then reuses the
mapping block, whose size field is `4080 + BLOCK_SIZE`, and the returned range
`[p, p + 4100)` covers bytes of the header of `r`: zero-filling it through
`mycalloc(1, 4100)` wipes the size of that block. -/
theorem reused_mapping_block_overlaps_remainder :
    ptr_of scnB2 = 1048600 ∧ ptr_of scnB3 = 1052680 + BLOCK_SIZE ∧
    hdr_size scnB4.mem 1048576 = 4080 + BLOCK_SIZE ∧
    Chain scnB4.mem scnB4.base_ptr [65536, 1048576, 1052680] ∧
    ptr_of scnB5 = 1048600 ∧
    hdr_free (state_of scnB5).mem 1052680 = 0 ∧
    Chain (state_of scnB5).mem (state_of scnB5).base_ptr [65536, 1048576, 1052680] ∧
    (1048600 ≤ 1052680 ∧ 1052680 < 1048600 + 4100) ∧
    hdr_size scnB4.mem 1052680 = 8 ∧
    ptr_of (mycalloc 4096 os_demo 10 scnB4 1 4100) = 1048600 ∧
    hdr_size (state_of (mycalloc 4096 os_demo 10 scnB4 1 4100)).mem 1052680 = 0 := by
  decide

/-! ## Zeroed allocation -/

/-- Zero-fill over total memory: for `nmemb > 0`, `s > 0` with `nmemb * s`
within `size_t`, when `mymalloc(nmemb * s)` returns a non-null pointer `p` in a
state, `mycalloc(nmemb, s)` returns the same `p` in that state, and afterwards
every byte of `[p, p + nmemb * s)` is zero; nothing else differs from what
`mymalloc` leaves. Whether the range is memory the process obtained is not
part of this statement. -/
theorem mycalloc_zero_filled (page : Nat) (os : OS) (fuel : Nat) (st : State)
    (nmemb s p : Nat) (st1 : State) (hn : 0 < nmemb) (hs : 0 < s) (hov : nmemb * s < WORD)
    (hm : mymalloc page os fuel st (nmemb * s) = Res.ok (p, st1)) (hp : p ≠ 0) :
    ∃ st2, mycalloc page os fuel st nmemb s = Res.ok (p, st2) ∧
      (∀ a, p ≤ a → a < p + nmemb * s → st2.mem a = 0) ∧
      (∀ a, a < p ∨ p + nmemb * s ≤ a → st2.mem a = st1.mem a) ∧
      st2.base_ptr = st1.base_ptr ∧ st2.brk = st1.brk ∧ st2.maps = st1.maps := by
  have hpos : 0 < nmemb * s := Nat.mul_pos hn hs
  refine ⟨{ st1 with mem := memset0 st1.mem p (nmemb * s) }, ?_, ?_, ?_, rfl, rfl, rfl⟩
  · unfold mycalloc
    rw [if_neg (by simp; omega)]
    simp only [Nat.mod_eq_of_lt hov]
    rw [if_neg (by simp; omega), hm]
    simp only []
    rw [if_neg hp]
  · intro a h1 h2
    show memset0 st1.mem p (nmemb * s) a = 0
    unfold memset0
    rw [if_pos ⟨h1, h2⟩]
  · intro a h
    show memset0 st1.mem p (nmemb * s) a = st1.mem a
    unfold memset0
    rw [if_neg (by omega)]

theorem mycalloc_zero_filled_witness :
    ∃ st2, mycalloc 4096 os_demo 10 scnA3 4 4 = Res.ok (65560, st2) ∧
      (∀ a, 65560 ≤ a → a < 65560 + 4 * 4 → st2.mem a = 0) ∧
      (∀ a, a < 65560 ∨ 65560 + 4 * 4 ≤ a →
        st2.mem a = (state_of (mymalloc 4096 os_demo 10 scnA3 (4 * 4))).mem a) ∧
      st2.base_ptr = (state_of (mymalloc 4096 os_demo 10 scnA3 (4 * 4))).base_ptr ∧
      st2.brk = (state_of (mymalloc 4096 os_demo 10 scnA3 (4 * 4))).brk ∧
      st2.maps = (state_of (mymalloc 4096 os_demo 10 scnA3 (4 * 4))).maps :=
  mycalloc_zero_filled 4096 os_demo 10 scnA3 4 4 65560
    (state_of (mymalloc 4096 os_demo 10 scnA3 (4 * 4))) (by decide) (by decide) (by decide)
    rfl (by decide)

/-- C7 (the code at the failing input): for `nmemb = 2^32` and `s = 2^32 + 1`
the product exceeds the `size_t` maximum, yet `mycalloc` passes both
assertions and returns a block whose size, `2^32`, is below the product. -/
theorem mycalloc_overflow_not_caught :
    4294967296 * 4294967297 > FAILED ∧
    ptr_of (mycalloc 4096 os_demo 10 (empty 65536) 4294967296 4294967297) = 65560 ∧
    hdr_size (state_of (mycalloc 4096 os_demo 10 (empty 65536) 4294967296 4294967297)).mem
      65536 = 4294967296 ∧
    4294967296 < 4294967296 * 4294967297 := by
  decide

/-! ## Backend selection and backend failure -/

theorem finish_new_ok {fuel : Nat} {r : Res (Nat × State)} {p : Nat} {st2 : State}
    (h : finish_new fuel r = Res.ok (p, st2)) :
    ∃ block st1, r = Res.ok (block, st1) ∧ block ≠ 0 ∧
      add_block_at_end fuel st1 block = Res.ok st2 ∧ p = (block + BLOCK_SIZE) % WORD := by
  unfold finish_new at h
  split at h
  · rename_i block st1
    split at h
    · cases h
    · rename_i hb
      split at h
      · rename_i st3 hadd
        cases h
        exact ⟨block, st1, rfl, hb, hadd, rfl⟩
      · cases h
      · cases h
  · cases h
  · cases h

theorem add_block_at_end_os {fuel : Nat} {st st2 : State} {block : Nat}
    (h : add_block_at_end fuel st block = Res.ok st2) :
    st2.brk = st.brk ∧ st2.maps = st.maps := by
  unfold add_block_at_end at h
  split at h
  · cases h; exact ⟨rfl, rfl⟩
  · split at h
    · cases h; exact ⟨rfl, rfl⟩
    · cases h
    · cases h

theorem create_big_block_ok {page : Nat} {os : OS} {st st1 : State} {s block : Nat}
    (h : create_big_block page os st s = Res.ok (block, st1)) (hb : block ≠ 0) :
    block = os.mmap_ret ∧ st1.brk = st.brk ∧
      st1.maps = st.maps ++ [(os.mmap_ret, (BLOCK_SIZE + s) % WORD)] ∧
      st1.base_ptr = st.base_ptr ∧
      st1.mem = format_header
        (if ((BLOCK_SIZE + s) % WORD) % page ≤ BLOCK_SIZE
          then format_header st.mem ((os.mmap_ret + (BLOCK_SIZE + s) % WORD) % WORD)
            (((BLOCK_SIZE + s) % WORD) % page) 0 1
          else st.mem)
        os.mmap_ret ((s + BLOCK_SIZE) % WORD)
        (if ((BLOCK_SIZE + s) % WORD) % page ≤ BLOCK_SIZE
          then (os.mmap_ret + (BLOCK_SIZE + s) % WORD) % WORD else 0) 0 := by
  by_cases hs0 : s = 0
  · simp [create_big_block, hs0] at h
  · by_cases hF : os.mmap_ret = FAILED
    · simp only [create_big_block, hs0, hF, ↓reduceIte, Res.ok.injEq, Prod.mk.injEq] at h
      exact absurd h.1.symm hb
    · by_cases hrem : ((BLOCK_SIZE + s) % WORD) % page ≤ BLOCK_SIZE
      · simp only [create_big_block, hs0, hF, hrem, ↓reduceIte, Res.ok.injEq,
          Prod.mk.injEq] at h
        obtain ⟨h1, h2⟩ := h
        subst h2
        rw [if_pos hrem, if_pos hrem]
        exact ⟨h1.symm, rfl, rfl, rfl, rfl⟩
      · simp only [create_big_block, hs0, hF, hrem, ↓reduceIte, Res.ok.injEq,
          Prod.mk.injEq] at h
        obtain ⟨h1, h2⟩ := h
        subst h2
        rw [if_neg hrem, if_neg hrem]
        exact ⟨h1.symm, rfl, rfl, rfl, rfl⟩

theorem create_small_block_ok {os : OS} {st st1 : State} {s block : Nat}
    (h : create_small_block os st s = Res.ok (block, st1)) (hb : block ≠ 0) :
    block = st.brk ∧ st1.brk = (st.brk + (s + BLOCK_SIZE) % WORD) % WORD ∧
      st1.maps = st.maps ∧ os.sbrk_ok = true ∧ st.brk ≠ FAILED ∧ s ≠ 0 ∧
      st1.base_ptr = st.base_ptr ∧ st1.mem = format_header st.mem st.brk s 0 0 := by
  by_cases hs0 : s = 0
  · simp [create_small_block, hs0] at h
  · by_cases hok : os.sbrk_ok = true
    · by_cases hF : st.brk = FAILED
      · simp only [create_small_block, hs0, hok, hF, if_true, if_false, ↓reduceIte, Res.ok.injEq, Prod.mk.injEq] at h
        exact absurd h.1.symm hb
      · simp only [create_small_block, hs0, hok, hF, if_true, if_false, ↓reduceIte, Res.ok.injEq, Prod.mk.injEq] at h
        obtain ⟨h1, h2⟩ := h
        subst h2
        exact ⟨h1.symm, rfl, rfl, hok, hF, hs0, rfl, rfl⟩
    · simp only [create_small_block, hs0, hok, if_true, if_false, ↓reduceIte, Res.ok.injEq, Prod.mk.injEq, Bool.false_eq_true] at h
      exact absurd h.1.symm hb

theorem format_header_free_zero (m : Mem) (b sz nx y : Nat) (h1 : b + 16 ≤ y)
    (h2 : y < b + 20) : format_header m b sz nx 0 y = 0 := by
  unfold format_header
  exact set_free_zero_bytes _ b y h1 h2

/-- What the backend chosen on a miss leaves behind: a formatted, allocated
block that heads its own short chain, with the headers of `l` untouched. -/
theorem miss_create (page : Nat) (os : OS) (st : State) (n : Nat) (l : List Nat)
    (block : Nat) (st0 : State) (hty : Typed os st) (hbase : st.base_ptr ≠ 0)
    (hfresh : FreshFor page os st n l) (hpage : BLOCK_SIZE ≤ page) (hnW : n < WORD)
    (hcreate : (if (BLOCK_SIZE + n) % WORD ≥ page then create_big_block page os st n
      else create_small_block os st n) = Res.ok (block, st0)) (hb : block ≠ 0) :
    block < WORD ∧ st0.base_ptr = st.base_ptr ∧
    (∀ x ∈ l, ∀ y, x ≤ y → y < x + 24 → st0.mem y = st.mem y) ∧
    (∃ rest, Chain st0.mem block (block :: rest) ∧ ∀ x ∈ l, ∀ h ∈ block :: rest, Sep x h) ∧
    (∀ y, block + 16 ≤ y → y < block + 20 → st0.mem y = 0) ∧
    hdr_size st0.mem block ≥ n := by
  obtain ⟨_, hbrk, hmm⟩ := hty
  obtain ⟨hpw, hfr⟩ := hfresh
  by_cases hge : (BLOCK_SIZE + n) % WORD ≥ page
  · rw [if_pos hge] at hcreate
    obtain ⟨e1, _, _, e4, e5⟩ := create_big_block_ok hcreate hb
    subst e1
    have hsz : (n + BLOCK_SIZE) % WORD ≥ n := by
      unfold BLOCK_SIZE WORD at *
      omega
    by_cases hrem : ((BLOCK_SIZE + n) % WORD) % page ≤ BLOCK_SIZE
    · rw [if_pos hrem, if_pos hrem] at e5
      have hnh : new_headers page os st n =
          [os.mmap_ret, (os.mmap_ret + (BLOCK_SIZE + n) % WORD) % WORD] := by
        unfold new_headers
        rw [if_pos ⟨hbase, hge⟩, if_pos hrem]
      rw [hnh] at hpw hfr
      generalize hR : (os.mmap_ret + (BLOCK_SIZE + n) % WORD) % WORD = R at *
      have hRW : R < WORD := by rw [← hR]; exact Nat.mod_lt _ (by unfold WORD; omega)
      have hMR : Sep os.mmap_ret R := by
        have := List.pairwise_cons.1 hpw
        exact this.1 R (List.mem_singleton.2 rfl)
      have hMl : ∀ x ∈ l, Sep x os.mmap_ret := fun x hx => hfr _ (by simp) x hx
      have hRl : ∀ x ∈ l, Sep x R := fun x hx => hfr _ (by simp) x hx
      unfold Sep BLOCK_SIZE at hMR
      refine ⟨hmm, e4, ?_, ?_, ?_, ?_⟩
      · intro x hx y h1 h2
        have hxM := hMl x hx
        have hxR := hRl x hx
        unfold Sep BLOCK_SIZE at hxM hxR
        rw [e5, format_header_outside _ _ _ _ _ _ (by omega),
          format_header_outside _ _ _ _ _ _ (by omega)]
      · have hnextM : hdr_next st0.mem os.mmap_ret = R := by
          rw [e5, format_header_next, Nat.mod_eq_of_lt hRW]
        by_cases hR0 : R = 0
        · refine ⟨[], ⟨rfl, hb, ?_⟩, ?_⟩
          · show hdr_next st0.mem os.mmap_ret = 0
            rw [hnextM, hR0]
          · intro x hx h hh
            rw [List.mem_singleton.1 hh]
            exact hMl x hx
        · refine ⟨[R], ⟨rfl, hb, hnextM, hR0, ?_⟩, ?_⟩
          · show hdr_next st0.mem R = 0
            rw [e5, hdr_next_congr (format_header st.mem R
              (((BLOCK_SIZE + n) % WORD) % page) 0 1) _ R (fun x h1 h2 => by
                rw [format_header_outside _ _ _ _ _ _ (by omega)]), format_header_next]
            rfl
          · intro x hx h hh
            rcases List.mem_cons.1 hh with rfl | hh
            · exact hMl x hx
            · rw [List.mem_singleton.1 hh]
              exact hRl x hx
      · intro y h1 h2
        rw [e5]
        exact format_header_free_zero _ _ _ _ y h1 h2
      · rw [e5, format_header_size, Nat.mod_mod]
        exact hsz
    · rw [if_neg hrem, if_neg hrem] at e5
      have hnh : new_headers page os st n = [os.mmap_ret] := by
        unfold new_headers
        rw [if_pos ⟨hbase, hge⟩, if_neg hrem]
      rw [hnh] at hfr
      have hMl : ∀ x ∈ l, Sep x os.mmap_ret := fun x hx => hfr _ (by simp) x hx
      refine ⟨hmm, e4, ?_, ⟨[], ⟨rfl, hb, ?_⟩, ?_⟩, ?_, ?_⟩
      · intro x hx y h1 h2
        have hxM := hMl x hx
        unfold Sep BLOCK_SIZE at hxM
        rw [e5, format_header_outside _ _ _ _ _ _ (by omega)]
      · show hdr_next st0.mem os.mmap_ret = 0
        rw [e5, format_header_next]
        rfl
      · intro x hx h hh
        rw [List.mem_singleton.1 hh]
        exact hMl x hx
      · intro y h1 h2
        rw [e5]
        exact format_header_free_zero _ _ _ _ y h1 h2
      · rw [e5, format_header_size, Nat.mod_mod]
        exact hsz
  · rw [if_neg hge] at hcreate
    obtain ⟨e1, _, _, _, _, _, e4, e5⟩ := create_small_block_ok hcreate hb
    subst e1
    have hnh : new_headers page os st n = [st.brk] := by
      unfold new_headers
      rw [if_neg (by intro h; exact hge h.2)]
    rw [hnh] at hfr
    have hMl : ∀ x ∈ l, Sep x st.brk := fun x hx => hfr _ (by simp) x hx
    refine ⟨hbrk, e4, ?_, ⟨[], ⟨rfl, hb, ?_⟩, ?_⟩, ?_, ?_⟩
    · intro x hx y h1 h2
      have hxM := hMl x hx
      unfold Sep BLOCK_SIZE at hxM
      rw [e5, format_header_outside _ _ _ _ _ _ (by omega)]
    · show hdr_next st0.mem st.brk = 0
      rw [e5, format_header_next]
      rfl
    · intro x hx h hh
      rw [List.mem_singleton.1 hh]
      exact hMl x hx
    · intro y h1 h2
      rw [e5]
      exact format_header_free_zero _ _ _ _ y h1 h2
    · rw [e5, format_header_size, Nat.mod_eq_of_lt hnW]

theorem add_block_at_end_ok {fuel : Nat} {st st2 : State} {block : Nat} {l : List Nat}
    (h : add_block_at_end fuel st block = Res.ok st2) (hbase : st.base_ptr ≠ 0)
    (hne : l ≠ []) (hc : Chain st.mem st.base_ptr l) (hf : l.length ≤ fuel) :
    st2 = { st with mem := set_next st.mem (l.getLast hne) block } := by
  unfold add_block_at_end at h
  rw [if_neg hbase, add_block_loop_last hne hc hf] at h
  cases h
  rfl

/-- The block behind a pointer that `mymalloc(n)` returned: it is reached from
`base_ptr` through blocks that do not fit `n`, it is allocated, and it is large
enough. -/
theorem mymalloc_post (page : Nat) (os : OS) (fuel : Nat) (st : State) (n : Nat)
    (l : List Nat) (p : Nat) (st1 : State) (hty : Typed os st)
    (hc : Chain st.mem st.base_ptr l) (hsep : l.Pairwise Sep)
    (hfresh : FreshFor page os st n l) (hpage : BLOCK_SIZE ≤ page) (hn : 0 < n)
    (hnW : n < WORD) (hfuel : l.length < fuel)
    (hr : mymalloc page os fuel st n = Res.ok (p, st1)) :
    ∃ B pre, B ≠ 0 ∧ B < WORD ∧ p = (B + BLOCK_SIZE) % WORD ∧
      Path st1.mem st1.base_ptr pre B ∧ (∀ x ∈ pre, Sep x B) ∧
      (∀ x ∈ pre, ¬ Fits st1.mem n x) ∧
      (∀ y, B + 16 ≤ y → y < B + 20 → st1.mem y = 0) ∧
      hdr_size st1.mem B ≥ n ∧ pre.length ≤ l.length := by
  have hn0 : n ≠ 0 := by omega
  by_cases hbase : st.base_ptr = 0
  · -- first block of the chain
    unfold mymalloc at hr
    rw [if_neg hn0, if_neg (by simp [hbase])] at hr
    split at hr
    · rename_i block st0 hcs
      split at hr
      · cases hr
      · rename_i hb
        cases hr
        obtain ⟨e1, _, _, _, _, _, _, e5⟩ := create_small_block_ok hcs hb
        subst e1
        refine ⟨st.brk, [], hb, hty.2.1, rfl, rfl, (fun _ hx => by cases hx),
          (fun _ hx => by cases hx), ?_, ?_, Nat.zero_le _⟩
        · intro y h1 h2
          show st0.mem y = 0
          rw [e5]
          exact format_header_free_zero _ _ _ _ y h1 h2
        · show hdr_size st0.mem st.brk ≥ n
          rw [e5, format_header_size, Nat.mod_eq_of_lt hnW]
    · cases hr
    · cases hr
  · have hlne : l ≠ [] := by
      intro h0
      rw [h0] at hc
      exact hbase hc
    rcases split_first_fit st.mem n l with hmiss | ⟨pre, b, post, h1, h2, h3⟩
    · -- no block fits: a new block is created and linked at the tail
      have hg : get_next_fit_block fuel st n = Res.ok 0 := by
        unfold get_next_fit_block
        rw [if_neg hn0]
        exact get_next_fit_loop_miss hc hmiss hfuel
      have e : mymalloc page os fuel st n = finish_new fuel
          (if (BLOCK_SIZE + n) % WORD ≥ page then create_big_block page os st n
            else create_small_block os st n) := by
        simp [mymalloc, hn0, hbase, hg]
      rw [e] at hr
      obtain ⟨block, st0, hcr, hb, hadd, hp⟩ := finish_new_ok hr
      obtain ⟨hbW, hb0, hkeep, ⟨rest, hnew, hfr⟩, hzero, hsize⟩ :=
        miss_create page os st n l block st0 hty hbase hfresh hpage hnW hcr hb
      have hkeepf : ∀ x ∈ l, hdr_size st0.mem x = hdr_size st.mem x ∧
          hdr_next st0.mem x = hdr_next st.mem x ∧ hdr_free st0.mem x = hdr_free st.mem x :=
        fun x hx =>
          ⟨hdr_size_congr _ _ x (fun y a b => by rw [hkeep x hx y a (by omega)]),
            hdr_next_congr _ _ x (fun y a b => by rw [hkeep x hx y (by omega) (by omega)]),
            hdr_free_congr _ _ x (fun y a b => by rw [hkeep x hx y (by omega) (by omega)])⟩
      have hc0 : Chain st0.mem st0.base_ptr l := by
        rw [hb0]
        exact Path.congr (fun x hx => (hkeepf x hx).2.1) hc
      have hst1 := add_block_at_end_ok hadd (by rw [hb0]; exact hbase) hlne hc0 (by omega)
      obtain ⟨happ, hfields⟩ := append_chain hlne hc0 hsep hnew hfr hbW
      obtain ⟨B1, hpath, hq⟩ := Path.split happ
      have hB1 : B1 = block := hq.1
      subst hB1
      have hlast : l.getLast hlne ∈ l := List.getLast_mem hlne
      have hsepT : Sep (l.getLast hlne) B1 := hfr _ hlast B1 (by simp)
      unfold Sep BLOCK_SIZE at hsepT
      subst hst1
      refine ⟨B1, l, hb, hbW, hp, hpath, fun x hx => hfr x hx B1 (by simp), ?_, ?_, ?_,
        le_refl _⟩
      · intro x hx hfit
        apply hmiss x hx
        unfold Fits at hfit ⊢
        rw [← (hkeepf x hx).1, ← (hkeepf x hx).2.2, ← (hfields x hx).1, ← (hfields x hx).2]
        exact hfit
      · intro y h1 h2
        show set_next st0.mem (l.getLast hlne) B1 y = 0
        rw [set_next_outside _ _ _ _ (by omega)]
        exact hzero y h1 h2
      · show hdr_size (set_next st0.mem (l.getLast hlne) B1) B1 ≥ n
        rw [hdr_size_congr st0.mem _ B1 (fun y a b => by
          rw [set_next_outside _ _ _ _ (by omega)])]
        exact hsize
    · -- a free block fits: it is handed out again
      subst h1
      obtain ⟨c, hp, hq⟩ := Path.split hc
      have hcb : c = b := hq.1
      subst hcb
      have hb : c ≠ 0 := hq.2.1
      have hg : get_next_fit_block fuel st n = Res.ok c := by
        unfold get_next_fit_block
        rw [if_neg hn0]
        exact get_next_fit_loop_hit hp h3 hb h2 (by simp at hfuel; omega)
      have e : mymalloc page os fuel st n =
          Res.ok ((c + BLOCK_SIZE) % WORD, { st with mem := set_free st.mem c 0 }) := by
        simp [mymalloc, hn0, hbase, hg, hb]
      rw [e] at hr
      cases hr
      have hpre : ∀ x ∈ pre, Sep x c := fun x hx =>
        (List.pairwise_append.1 hsep).2.2 x hx c (by simp)
      have hkeepf : ∀ x ∈ pre, hdr_size (set_free st.mem c 0) x = hdr_size st.mem x ∧
          hdr_next (set_free st.mem c 0) x = hdr_next st.mem x ∧
          hdr_free (set_free st.mem c 0) x = hdr_free st.mem x := by
        intro x hx
        have := hpre x hx
        unfold Sep BLOCK_SIZE at this
        exact fields_of_far st.mem _ x (c + 16) (c + 20)
          (fun y hy => set_free_outside st.mem c 0 y hy) (by omega)
      refine ⟨c, pre, hb, Path.end_lt hp hty.1, rfl,
        Path.congr (fun x hx => (hkeepf x hx).2.1) hp, hpre, ?_, ?_, ?_, by simp⟩
      · intro x hx hfit
        apply h3 x hx
        unfold Fits at hfit ⊢
        rw [← (hkeepf x hx).1, ← (hkeepf x hx).2.2]
        exact hfit
      · intro y a1 a2
        exact set_free_zero_bytes st.mem c y a1 a2
      · show hdr_size (set_free st.mem c 0) c ≥ n
        rw [hdr_size_congr st.mem _ c (fun y a b => by
          rw [set_free_outside _ _ _ _ (by omega)])]
        exact h2.1

theorem set_free_roundtrip (m : Mem) (B : Nat)
    (hzero : ∀ y, B + 16 ≤ y → y < B + 20 → m y = 0) :
    set_free (set_free m B 1) B 0 = m := by
  funext y
  by_cases hy : B + 16 ≤ y ∧ y < B + 20
  · rw [set_free_zero_bytes _ B y hy.1 hy.2, hzero y hy.1 hy.2]
  · rw [set_free_outside _ _ _ _ (by omega), set_free_outside _ _ _ _ (by omega)]

/-- Releasing an allocated block succeeds and sets its flag; releasing it
again fails the assertion. -/
theorem double_free (st1 : State) (B : Nat) (hB0 : B ≠ 0) (hBW : B < WORD)
    (halloc : hdr_free st1.mem B = 0) :
    ∃ st2, myfree st1 ((B + BLOCK_SIZE) % WORD) = Res.ok st2 ∧ hdr_free st2.mem B = 1 ∧
      myfree st2 ((B + BLOCK_SIZE) % WORD) = Res.abort := by
  obtain ⟨st2, h1, h2, _⟩ :=
    myfree_effect st1 ((B + BLOCK_SIZE) % WORD) B (block_of_ptr B hBW).symm hB0 halloc
  refine ⟨st2, h1, h2, ?_⟩
  unfold myfree
  rw [block_of_ptr B hBW, if_neg hB0, if_pos (by rw [h2]; decide)]

/-- Round trip on a well-formed state: in a state whose chain `l` is finite
with headers apart from each other, with a backend whose new headers overlap no
header of the chain and a page no smaller than a header, whenever `p = mymalloc(n)` returns (a free block fitted, or the
backend succeeded), `myfree(p)` returns and the next `mymalloc(n)` returns `p`
again, whatever the backend would answer, and leaves exactly the state the
first call left: no block is created. -/
theorem malloc_free_malloc_roundtrip (page : Nat) (os : OS) (fuel : Nat) (st : State)
    (n : Nat) (l : List Nat) (p : Nat) (st1 : State) (hty : Typed os st)
    (hc : Chain st.mem st.base_ptr l) (hsep : l.Pairwise Sep)
    (hfresh : FreshFor page os st n l) (hpage : BLOCK_SIZE ≤ page) (hn : 0 < n)
    (hnW : n < WORD) (hfuel : l.length < fuel)
    (hr : mymalloc page os fuel st n = Res.ok (p, st1)) :
    ∃ st2, myfree st1 p = Res.ok st2 ∧
      ∀ os1, mymalloc page os1 fuel st2 n = Res.ok (p, st1) := by
  obtain ⟨B, pre, hB0, hBW, hp, hpath, hpre, hnf, hzero, hsize, hlen⟩ :=
    mymalloc_post page os fuel st n l p st1 hty hc hsep hfresh hpage hn hnW hfuel hr
  have halloc := hdr_free_of_zero_bytes st1.mem B hzero
  refine ⟨{ st1 with mem := set_free st1.mem B 1 }, ?_, ?_⟩
  · rw [hp]
    exact (reuse_after_free page os fuel st1 n B pre hpath hB0 hBW hpre hnf halloc hsize hn
      (by omega)).1
  · intro os1
    have h2 := (reuse_after_free page os1 fuel st1 n B pre hpath hB0 hBW hpre hnf halloc
      hsize hn (by omega)).2
    rw [set_free_roundtrip st1.mem B hzero, ← hp] at h2
    exact h2

theorem malloc_free_malloc_roundtrip_witness :
    ∃ st2, myfree (state_of (mymalloc 4096 os_demo 10 (empty 65536) 16)) 65560 = Res.ok st2 ∧
      ∀ os1, mymalloc 4096 os1 10 st2 16 =
        Res.ok (65560, state_of (mymalloc 4096 os_demo 10 (empty 65536) 16)) :=
  malloc_free_malloc_roundtrip 4096 os_demo 10 (empty 65536) 16 [] 65560
    (state_of (mymalloc 4096 os_demo 10 (empty 65536) 16)) (by decide) (by decide)
    (by decide) (by decide) (by decide) (by decide) (by decide) (by decide) rfl

/-- Release right after the allocating call, on a well-formed state: under
the same conditions on the state, a pointer `p` returned by `mymalloc` or
(non-null) by `mycalloc` can be released once, which sets the
`free` flag of its block to 1, and a second `myfree(p)` right after fails the
assertion, which ends the process before any store. More generally, for a block
whose flag is 0 or 1, `myfree` fails exactly when the flag is already 1. -/
theorem double_free_guard (page : Nat) (os : OS) (fuel : Nat) (st : State) (l : List Nat)
    (hty : Typed os st) (hc : Chain st.mem st.base_ptr l) (hsep : l.Pairwise Sep)
    (hpage : BLOCK_SIZE ≤ page) (hfuel : l.length < fuel) :
    (∀ n p st1, 0 < n → n < WORD → FreshFor page os st n l →
      mymalloc page os fuel st n = Res.ok (p, st1) →
      ∃ st2, myfree st1 p = Res.ok st2 ∧
        hdr_free st2.mem ((p + WORD - BLOCK_SIZE) % WORD) = 1 ∧ myfree st2 p = Res.abort) ∧
    (∀ nmemb s p st1, FreshFor page os st ((nmemb * s) % WORD) l →
      mycalloc page os fuel st nmemb s = Res.ok (p, st1) → p ≠ 0 →
      ∃ st2, myfree st1 p = Res.ok st2 ∧
        hdr_free st2.mem ((p + WORD - BLOCK_SIZE) % WORD) = 1 ∧ myfree st2 p = Res.abort) ∧
    (∀ (st0 : State) (b : Nat), b ≠ 0 → b < WORD →
      (hdr_free st0.mem b = 0 ∨ hdr_free st0.mem b = 1) →
      (myfree st0 ((b + BLOCK_SIZE) % WORD) = Res.abort ↔ hdr_free st0.mem b = 1)) := by
  refine ⟨?_, ?_, ?_⟩
  · intro n p st1 hn hnW hfresh hr
    obtain ⟨B, pre, hB0, hBW, hp, _, _, _, hzero, _, _⟩ :=
      mymalloc_post page os fuel st n l p st1 hty hc hsep hfresh hpage hn hnW hfuel hr
    have halloc := hdr_free_of_zero_bytes st1.mem B hzero
    rw [hp, block_of_ptr B hBW]
    exact double_free st1 B hB0 hBW halloc
  · intro nmemb s p st1 hfresh hr hp0
    unfold mycalloc at hr
    split at hr
    · cases hr
    · simp only [] at hr
      split at hr
      · cases hr
      · rename_i htot
        split at hr
        · rename_i q st0 hm
          split at hr
          · cases hr
            exact absurd rfl hp0
          · cases hr
            have hpos : 0 < (nmemb * s) % WORD := by omega
            have hlt : (nmemb * s) % WORD < WORD := Nat.mod_lt _ (by unfold WORD; omega)
            obtain ⟨B, pre, hB0, hBW, hp, _, _, _, hzero, _, _⟩ :=
              mymalloc_post page os fuel st _ l p st0 hty hc hsep hfresh hpage hpos hlt
                hfuel hm
            have halloc : hdr_free (memset0 st0.mem p ((nmemb * s) % WORD)) B = 0 := by
              apply hdr_free_of_zero_bytes
              intro y h1 h2
              unfold memset0
              split
              · rfl
              · exact hzero y h1 h2
            rw [hp, block_of_ptr B hBW]
            rw [hp] at halloc
            exact double_free _ B hB0 hBW halloc
        · cases hr
        · cases hr
  · intro st0 b hb0 hbW hflag
    unfold myfree
    rw [block_of_ptr b hbW, if_neg hb0]
    rcases hflag with h | h
    · rw [if_neg (by simp [h]), h]
      constructor
      · intro h1; cases h1
      · intro h1; cases h1
    · rw [if_pos (by rw [h]; decide)]
      exact ⟨fun _ => h, fun _ => rfl⟩

theorem double_free_guard_witness :
    (∀ n p st1, 0 < n → n < WORD → FreshFor 4096 os_demo (state_of scnA2) n [65536, 65660] →
      mymalloc 4096 os_demo 10 (state_of scnA2) n = Res.ok (p, st1) →
      ∃ st2, myfree st1 p = Res.ok st2 ∧
        hdr_free st2.mem ((p + WORD - BLOCK_SIZE) % WORD) = 1 ∧ myfree st2 p = Res.abort) ∧
    (∀ nmemb s p st1, FreshFor 4096 os_demo (state_of scnA2) ((nmemb * s) % WORD)
        [65536, 65660] →
      mycalloc 4096 os_demo 10 (state_of scnA2) nmemb s = Res.ok (p, st1) → p ≠ 0 →
      ∃ st2, myfree st1 p = Res.ok st2 ∧
        hdr_free st2.mem ((p + WORD - BLOCK_SIZE) % WORD) = 1 ∧ myfree st2 p = Res.abort) ∧
    (∀ (st0 : State) (b : Nat), b ≠ 0 → b < WORD →
      (hdr_free st0.mem b = 0 ∨ hdr_free st0.mem b = 1) →
      (myfree st0 ((b + BLOCK_SIZE) % WORD) = Res.abort ↔ hdr_free st0.mem b = 1)) :=
  double_free_guard 4096 os_demo 10 (state_of scnA2) [65536, 65660] (by decide) (by decide)
    (by decide) (by decide) (by decide)

/-- C8 (amended): when `mymalloc(s)`, `s > 0`, returns after creating a block,
then on a non-empty chain (`base_ptr != NULL`, no free block fits) the block
comes from `create_big_block` (a new mapping, the break untouched) when the
`size_t` sum `BLOCK_SIZE + s` is at least the page size, equality included, and
from `create_small_block` (the break moved, no mapping) when the sum is below
the page size; on the empty chain the block always comes from
`create_small_block`. -/
theorem backend_selection (page : Nat) (os : OS) (fuel : Nat) (st : State) (s p : Nat)
    (st1 : State) (hs : 0 < s) (hr : mymalloc page os fuel st s = Res.ok (p, st1)) :
    (st.base_ptr ≠ 0 → get_next_fit_block fuel st s = Res.ok 0 →
      (BLOCK_SIZE + s) % WORD ≥ page →
      mymalloc page os fuel st s = finish_new fuel (create_big_block page os st s) ∧
      st1.maps = st.maps ++ [(os.mmap_ret, (BLOCK_SIZE + s) % WORD)] ∧
      st1.brk = st.brk ∧ p = (os.mmap_ret + BLOCK_SIZE) % WORD) ∧
    (st.base_ptr ≠ 0 → get_next_fit_block fuel st s = Res.ok 0 →
      (BLOCK_SIZE + s) % WORD < page →
      mymalloc page os fuel st s = finish_new fuel (create_small_block os st s) ∧
      st1.maps = st.maps ∧ st1.brk = (st.brk + (s + BLOCK_SIZE) % WORD) % WORD ∧
      p = (st.brk + BLOCK_SIZE) % WORD) ∧
    (st.base_ptr = 0 →
      st1.maps = st.maps ∧ st1.brk = (st.brk + (s + BLOCK_SIZE) % WORD) % WORD ∧
      p = (st.brk + BLOCK_SIZE) % WORD ∧ st1.base_ptr = st.brk) := by
  have hs0 : s ≠ 0 := by omega
  refine ⟨?_, ?_, ?_⟩
  · intro hb hmiss hge
    have e : mymalloc page os fuel st s = finish_new fuel (create_big_block page os st s) := by
      simp [mymalloc, hs0, hb, hmiss, hge]
    refine ⟨e, ?_⟩
    rw [e] at hr
    obtain ⟨block, st0, h1, h2, h3, h4⟩ := finish_new_ok hr
    obtain ⟨h5, h6, h7, _⟩ := create_big_block_ok h1 h2
    obtain ⟨h8, h9⟩ := add_block_at_end_os h3
    exact ⟨by rw [h9, h7], by rw [h8, h6], by rw [h4, h5]⟩
  · intro hb hmiss hlt
    have e : mymalloc page os fuel st s = finish_new fuel (create_small_block os st s) := by
      simp [mymalloc, hs0, hb, hmiss, Nat.not_le.mpr hlt]
    refine ⟨e, ?_⟩
    rw [e] at hr
    obtain ⟨block, st0, h1, h2, h3, h4⟩ := finish_new_ok hr
    obtain ⟨h5, h6, h7, _⟩ := create_small_block_ok h1 h2
    obtain ⟨h8, h9⟩ := add_block_at_end_os h3
    exact ⟨by rw [h9, h7], by rw [h8, h6], by rw [h4, h5]⟩
  · intro hb
    unfold mymalloc at hr
    rw [if_neg hs0, if_neg (by simp [hb])] at hr
    split at hr
    · rename_i block st0 hc
      split at hr
      · cases hr
      · rename_i h2
        cases hr
        obtain ⟨h5, h6, h7, _⟩ := create_small_block_ok hc h2
        exact ⟨h7, h6, by rw [h5], h5⟩
    · cases hr
    · cases hr

theorem backend_selection_witness :
    ((state_of scnB1).base_ptr ≠ 0 → get_next_fit_block 10 (state_of scnB1) 200000 = Res.ok 0 →
      (BLOCK_SIZE + 200000) % WORD ≥ 4096 →
      mymalloc 4096 os_demo 10 (state_of scnB1) 200000 =
        finish_new 10 (create_big_block 4096 os_demo (state_of scnB1) 200000) ∧
      (state_of (mymalloc 4096 os_demo 10 (state_of scnB1) 200000)).maps =
        (state_of scnB1).maps ++ [(os_demo.mmap_ret, (BLOCK_SIZE + 200000) % WORD)] ∧
      (state_of (mymalloc 4096 os_demo 10 (state_of scnB1) 200000)).brk = (state_of scnB1).brk ∧
      1048600 = (os_demo.mmap_ret + BLOCK_SIZE) % WORD) ∧
    ((state_of scnB1).base_ptr ≠ 0 → get_next_fit_block 10 (state_of scnB1) 200000 = Res.ok 0 →
      (BLOCK_SIZE + 200000) % WORD < 4096 →
      mymalloc 4096 os_demo 10 (state_of scnB1) 200000 =
        finish_new 10 (create_small_block os_demo (state_of scnB1) 200000) ∧
      (state_of (mymalloc 4096 os_demo 10 (state_of scnB1) 200000)).maps =
        (state_of scnB1).maps ∧
      (state_of (mymalloc 4096 os_demo 10 (state_of scnB1) 200000)).brk =
        ((state_of scnB1).brk + (200000 + BLOCK_SIZE) % WORD) % WORD ∧
      1048600 = ((state_of scnB1).brk + BLOCK_SIZE) % WORD) ∧
    ((state_of scnB1).base_ptr = 0 →
      (state_of (mymalloc 4096 os_demo 10 (state_of scnB1) 200000)).maps =
        (state_of scnB1).maps ∧
      (state_of (mymalloc 4096 os_demo 10 (state_of scnB1) 200000)).brk =
        ((state_of scnB1).brk + (200000 + BLOCK_SIZE) % WORD) % WORD ∧
      1048600 = ((state_of scnB1).brk + BLOCK_SIZE) % WORD ∧
      (state_of (mymalloc 4096 os_demo 10 (state_of scnB1) 200000)).base_ptr =
        (state_of scnB1).brk) :=
  backend_selection 4096 os_demo 10 (state_of scnB1) 200000 1048600
    (state_of (mymalloc 4096 os_demo 10 (state_of scnB1) 200000)) (by decide) rfl

/-- C8 (counterexample): on the empty chain `mymalloc(200000)` with a
4096-byte page has `BLOCK_SIZE + size >= page_size`, yet the block is created
by `create_small_block`: no mapping is made and the break moves by 200024. -/
theorem backend_selection_empty_chain_uses_sbrk :
    (empty 65536).base_ptr = 0 ∧ (BLOCK_SIZE + 200000) % WORD ≥ 4096 ∧
    (state_of (mymalloc 4096 os_demo 10 (empty 65536) 200000)).maps = [] ∧
    (state_of (mymalloc 4096 os_demo 10 (empty 65536) 200000)).brk = 65536 + 200024 ∧
    ptr_of (mymalloc 4096 os_demo 10 (empty 65536) 200000) = 65536 + 24 ∧
    ptr_of (finish_new 10 (create_big_block 4096 os_demo (empty 65536) 200000)) =
      1048576 + 24 := by
  decide

/-- C9 (amended): for `s > 0`, if no free block fits (or the chain is empty)
and the backend selected for `s` fails (`mmap` answers `(void*) -1`,
respectively `sbrk` fails), then that backend returns `NULL` leaving the state
unchanged, and `mymalloc(s)` does not return `NULL`: it takes the fatal
assertion `assert(block != NULL)`; so does every `mycalloc` whose total is
`s`. -/
theorem backend_failure_aborts (page : Nat) (os : OS) (fuel : Nat) (st : State) (s : Nat)
    (hs : 0 < s) (hmiss : st.base_ptr ≠ 0 → get_next_fit_block fuel st s = Res.ok 0)
    (hfail : if st.base_ptr ≠ 0 ∧ (BLOCK_SIZE + s) % WORD ≥ page
      then os.mmap_ret = FAILED else os.sbrk_ok = false) :
    (if st.base_ptr ≠ 0 ∧ (BLOCK_SIZE + s) % WORD ≥ page
      then create_big_block page os st s else create_small_block os st s) = Res.ok (0, st) ∧
    mymalloc page os fuel st s = Res.abort ∧
    ∀ nmemb s1, (nmemb * s1) % WORD = s → mycalloc page os fuel st nmemb s1 = Res.abort := by
  have hs0 : s ≠ 0 := by omega
  have hm : mymalloc page os fuel st s = Res.abort := by
    by_cases hb : st.base_ptr = 0
    · rw [if_neg (by simp [hb])] at hfail
      simp [mymalloc, hs0, hb, create_small_block, hfail]
    · by_cases hge : (BLOCK_SIZE + s) % WORD ≥ page
      · rw [if_pos ⟨hb, hge⟩] at hfail
        simp [mymalloc, hs0, hb, hmiss hb, hge, create_big_block, hfail, finish_new]
      · rw [if_neg (by simp [hge])] at hfail
        simp [mymalloc, hs0, hb, hmiss hb, hge, create_small_block, hfail, finish_new]
  refine ⟨?_, hm, ?_⟩
  · by_cases hc : st.base_ptr ≠ 0 ∧ (BLOCK_SIZE + s) % WORD ≥ page
    · rw [if_pos hc] at hfail ⊢
      simp [create_big_block, hs0, hfail]
    · rw [if_neg hc] at hfail ⊢
      simp [create_small_block, hs0, hfail]
  · intro nmemb s1 hprod
    unfold mycalloc
    by_cases hpos : nmemb > 0 ∧ s1 > 0
    · rw [if_neg (by simp [hpos])]
      simp only [hprod]
      rw [if_neg (by simp; omega), hm]
    · rw [if_pos hpos]

theorem backend_failure_aborts_witness :
    (if (empty 65536).base_ptr ≠ 0 ∧ (BLOCK_SIZE + 16) % WORD ≥ 4096
      then create_big_block 4096 os_fail (empty 65536) 16
      else create_small_block os_fail (empty 65536) 16) = Res.ok (0, empty 65536) ∧
    mymalloc 4096 os_fail 10 (empty 65536) 16 = Res.abort ∧
    ∀ nmemb s1, (nmemb * s1) % WORD = 16 →
      mycalloc 4096 os_fail 10 (empty 65536) nmemb s1 = Res.abort :=
  backend_failure_aborts 4096 os_fail 10 (empty 65536) 16 (by decide)
    (fun h => absurd rfl h) (by decide)

/-- C9 (counterexample): with `sbrk` failing on the empty allocator,
`mymalloc(16)` and `mycalloc(4, 4)` do not return `NULL`; both end in the
failed assertion. -/
theorem backend_failure_not_null :
    (empty 65536).base_ptr = 0 ∧ os_fail.sbrk_ok = false ∧
    mymalloc 4096 os_fail 10 (empty 65536) 16 = Res.abort ∧
    (∀ st1, mymalloc 4096 os_fail 10 (empty 65536) 16 ≠ Res.ok (0, st1)) ∧
    mycalloc 4096 os_fail 10 (empty 65536) 4 4 = Res.abort ∧
    (∀ st1, mycalloc 4096 os_fail 10 (empty 65536) 4 4 ≠ Res.ok (0, st1)) := by
  have h1 : mymalloc 4096 os_fail 10 (empty 65536) 16 = Res.abort := rfl
  have h2 : mycalloc 4096 os_fail 10 (empty 65536) 4 4 = Res.abort := rfl
  refine ⟨rfl, rfl, h1, ?_, h2, ?_⟩
  · intro st1 h
    rw [h1] at h
    cases h
  · intro st1 h
    rw [h2] at h
    cases h

/-! ## The miss path in detail -/

/-- The miss path of `mymalloc` on a non-empty chain `l`: the backend's block,
with the chain `block :: rest` it heads, is linked behind the last block of
`l`; the blocks of `l` keep their size and flag. -/
theorem mymalloc_miss (page : Nat) (os : OS) (fuel : Nat) (st : State) (n : Nat)
    (l : List Nat) (p : Nat) (st1 : State) (hty : Typed os st)
    (hc : Chain st.mem st.base_ptr l) (hne : l ≠ []) (hsep : l.Pairwise Sep)
    (hfresh : FreshFor page os st n l) (hpage : BLOCK_SIZE ≤ page) (hn : 0 < n)
    (hnW : n < WORD) (hfuel : l.length < fuel) (hmiss : ∀ x ∈ l, ¬ Fits st.mem n x)
    (hr : mymalloc page os fuel st n = Res.ok (p, st1)) :
    ∃ block st0 rest,
      (if (BLOCK_SIZE + n) % WORD ≥ page then create_big_block page os st n
        else create_small_block os st n) = Res.ok (block, st0) ∧
      block ≠ 0 ∧ block < WORD ∧ p = (block + BLOCK_SIZE) % WORD ∧
      Chain st0.mem block (block :: rest) ∧ (∀ x ∈ l, ∀ h ∈ block :: rest, Sep x h) ∧
      st1 = { st0 with mem := set_next st0.mem (l.getLast hne) block } ∧
      Chain st1.mem st1.base_ptr (l ++ block :: rest) ∧ st1.base_ptr = st.base_ptr ∧
      (∀ x ∈ l, hdr_size st1.mem x = hdr_size st.mem x ∧
        hdr_free st1.mem x = hdr_free st.mem x) ∧
      (∀ y, block + 16 ≤ y → y < block + 20 → st1.mem y = 0) ∧
      hdr_size st1.mem block ≥ n := by
  have hn0 : n ≠ 0 := by omega
  have hbase : st.base_ptr ≠ 0 := by
    cases l with
    | nil => exact absurd rfl hne
    | cons x l => rw [hc.1]; exact hc.2.1
  have hg : get_next_fit_block fuel st n = Res.ok 0 := by
    unfold get_next_fit_block
    rw [if_neg hn0]
    exact get_next_fit_loop_miss hc hmiss hfuel
  have e : mymalloc page os fuel st n = finish_new fuel
      (if (BLOCK_SIZE + n) % WORD ≥ page then create_big_block page os st n
        else create_small_block os st n) := by
    simp [mymalloc, hn0, hbase, hg]
  rw [e] at hr
  obtain ⟨block, st0, hcr, hb, hadd, hp⟩ := finish_new_ok hr
  obtain ⟨hbW, hb0, hkeep, ⟨rest, hnew, hfr⟩, hzero, hsize⟩ :=
    miss_create page os st n l block st0 hty hbase hfresh hpage hnW hcr hb
  have hkeepf : ∀ x ∈ l, hdr_size st0.mem x = hdr_size st.mem x ∧
      hdr_next st0.mem x = hdr_next st.mem x ∧ hdr_free st0.mem x = hdr_free st.mem x :=
    fun x hx =>
      ⟨hdr_size_congr _ _ x (fun y a b => by rw [hkeep x hx y a (by omega)]),
        hdr_next_congr _ _ x (fun y a b => by rw [hkeep x hx y (by omega) (by omega)]),
        hdr_free_congr _ _ x (fun y a b => by rw [hkeep x hx y (by omega) (by omega)])⟩
  have hc0 : Chain st0.mem st0.base_ptr l := by
    rw [hb0]
    exact Path.congr (fun x hx => (hkeepf x hx).2.1) hc
  have hst1 := add_block_at_end_ok hadd (by rw [hb0]; exact hbase) hne hc0 (by omega)
  obtain ⟨happ, hfields⟩ := append_chain hne hc0 hsep hnew hfr hbW
  have hlast : l.getLast hne ∈ l := List.getLast_mem hne
  have hsepT : Sep (l.getLast hne) block := hfr _ hlast block (by simp)
  unfold Sep BLOCK_SIZE at hsepT
  refine ⟨block, st0, rest, hcr, hb, hbW, hp, hnew, hfr, hst1, ?_, ?_, ?_, ?_, ?_⟩
  · rw [hst1]
    exact happ
  · rw [hst1]
    exact hb0
  · intro x hx
    rw [hst1]
    exact ⟨(hfields x hx).1.trans (hkeepf x hx).1, (hfields x hx).2.trans (hkeepf x hx).2.2⟩
  · intro y h1 h2
    rw [hst1]
    show set_next st0.mem (l.getLast hne) block y = 0
    rw [set_next_outside _ _ _ _ (by omega)]
    exact hzero y h1 h2
  · rw [hst1]
    show hdr_size (set_next st0.mem (l.getLast hne) block) block ≥ n
    rw [hdr_size_congr st0.mem _ block (fun y a b => by
      rw [set_next_outside _ _ _ _ (by omega)])]
    exact hsize

/-- The hit path of `mymalloc`: the first fitting block is handed out with
its flag cleared. -/
theorem mymalloc_hit (page : Nat) (os : OS) (fuel : Nat) (st : State) (n b : Nat)
    (pre post : List Nat) (hc : Chain st.mem st.base_ptr (pre ++ b :: post)) (hn : 0 < n)
    (hfit : Fits st.mem n b) (hpre : ∀ x ∈ pre, ¬ Fits st.mem n x)
    (hfuel : (pre ++ b :: post).length < fuel) :
    mymalloc page os fuel st n =
      Res.ok ((b + BLOCK_SIZE) % WORD, { st with mem := set_free st.mem b 0 }) := by
  have hn0 : n ≠ 0 := by omega
  obtain ⟨c, hp, hq⟩ := Path.split hc
  have hcb : c = b := hq.1
  subst hcb
  have hb : c ≠ 0 := hq.2.1
  have hbase : st.base_ptr ≠ 0 := Path.start_ne_zero hp hb
  have hg : get_next_fit_block fuel st n = Res.ok c := by
    unfold get_next_fit_block
    rw [if_neg hn0]
    exact get_next_fit_loop_hit hp hpre hb hfit (by simp at hfuel; omega)
  simp [mymalloc, hn0, hbase, hg, hb]

/-! ## Append -/

/-- C18 (amended): let `C` be the finite chain rooted at `base_ptr`, with headers apart
from each other, and `b` a block outside `C` that heads its own chain
`b :: rest`, its headers apart from those of `C`. Then `add_block_at_end(b)`
returns (given fuel for `C`) and the chain from `base_ptr` is `C` followed by
`b :: rest`. If `C` is empty, `b` becomes `base_ptr` and memory is untouched;
otherwise `base_ptr` stays and only the bytes of the `next` field of the last
block of `C` change, to `b`. No `size` or `free` field of a block of either
chain changes. -/
theorem add_block_at_end_appends (fuel : Nat) (st : State) (b : Nat) (C rest : List Nat)
    (hc : Chain st.mem st.base_ptr C) (hsep : C.Pairwise Sep)
    (hS : Chain st.mem b (b :: rest)) (hfresh : ∀ x ∈ C, ∀ h ∈ b :: rest, Sep x h)
    (hbW : b < WORD) (hfuel : C.length ≤ fuel) :
    ∃ st2, add_block_at_end fuel st b = Res.ok st2 ∧
      Chain st2.mem st2.base_ptr (C ++ b :: rest) ∧
      (C = [] → st2.base_ptr = b ∧ st2.mem = st.mem) ∧
      (∀ hne : C ≠ [], st2.base_ptr = st.base_ptr ∧ hdr_next st2.mem (C.getLast hne) = b ∧
        ∀ a, a < C.getLast hne + 8 ∨ C.getLast hne + 16 ≤ a → st2.mem a = st.mem a) ∧
      (∀ x ∈ C ++ b :: rest, hdr_size st2.mem x = hdr_size st.mem x ∧
        hdr_free st2.mem x = hdr_free st.mem x) ∧
      st2.brk = st.brk ∧ st2.maps = st.maps := by
  by_cases hne : C = []
  · subst hne
    have hbase : st.base_ptr = 0 := hc
    refine ⟨{ st with base_ptr := b }, ?_, hS, fun _ => ⟨rfl, rfl⟩, fun h => absurd rfl h,
      fun _ _ => ⟨rfl, rfl⟩, rfl, rfl⟩
    unfold add_block_at_end
    rw [if_pos hbase]
  · have hbase : st.base_ptr ≠ 0 := by
      cases C with
      | nil => exact absurd rfl hne
      | cons x l => rw [hc.1]; exact hc.2.1
    obtain ⟨happ, hfields⟩ := append_chain hne hc hsep hS hfresh hbW
    have hlast : C.getLast hne ∈ C := List.getLast_mem hne
    refine ⟨{ st with mem := set_next st.mem (C.getLast hne) b }, ?_, happ,
      fun h => absurd h hne, ?_, ?_, rfl, rfl⟩
    · unfold add_block_at_end
      rw [if_neg hbase, add_block_loop_last hne hc hfuel]
    · intro _
      refine ⟨rfl, ?_, fun a ha => set_next_outside _ _ _ a ha⟩
      show hdr_next (set_next st.mem (C.getLast hne) b) (C.getLast hne) = b
      rw [hdr_next_set_next, Nat.mod_eq_of_lt hbW]
    · intro x hx
      rcases List.mem_append.1 hx with hx | hx
      · exact hfields x hx
      · have hs := hfresh _ hlast x hx
        have hs1 : Sep x (C.getLast hne) := by
          unfold Sep at hs ⊢
          omega
        have := set_next_fields_sep st.mem (C.getLast hne) b x hs1
        exact ⟨this.1, this.2.2⟩

theorem add_block_at_end_appends_witness :
    ∃ st2, add_block_at_end 10
        (state_of (create_big_block 4096 os_demo (state_of scnB1) 4080)) 1048576 =
        Res.ok st2 ∧
      Chain st2.mem st2.base_ptr ([65536] ++ 1048576 :: [1052680]) ∧
      ([65536] = [] → st2.base_ptr = 1048576 ∧
        st2.mem = (state_of (create_big_block 4096 os_demo (state_of scnB1) 4080)).mem) ∧
      (∀ hne : [65536] ≠ [],
        st2.base_ptr = (state_of (create_big_block 4096 os_demo (state_of scnB1) 4080)).base_ptr ∧
        hdr_next st2.mem ([65536].getLast hne) = 1048576 ∧
        ∀ a, a < [65536].getLast hne + 8 ∨ [65536].getLast hne + 16 ≤ a → st2.mem a =
          (state_of (create_big_block 4096 os_demo (state_of scnB1) 4080)).mem a) ∧
      (∀ x ∈ [65536] ++ 1048576 :: [1052680],
        hdr_size st2.mem x =
          hdr_size (state_of (create_big_block 4096 os_demo (state_of scnB1) 4080)).mem x ∧
        hdr_free st2.mem x =
          hdr_free (state_of (create_big_block 4096 os_demo (state_of scnB1) 4080)).mem x) ∧
      st2.brk = (state_of (create_big_block 4096 os_demo (state_of scnB1) 4080)).brk ∧
      st2.maps = (state_of (create_big_block 4096 os_demo (state_of scnB1) 4080)).maps :=
  add_block_at_end_appends 10 (state_of (create_big_block 4096 os_demo (state_of scnB1) 4080))
    1048576 [65536] [1052680] (by decide) (by decide) (by decide) (by decide) (by decide)
    (by decide)

/-! ## The remainder block -/

theorem create_big_block_eq (page : Nat) (os : OS) (st : State) (s : Nat) (hs : s ≠ 0)
    (hmap : os.mmap_ret ≠ FAILED) :
    create_big_block page os st s = Res.ok (os.mmap_ret,
      { st with
        maps := st.maps ++ [(os.mmap_ret, (BLOCK_SIZE + s) % WORD)]
        mem := format_header
          (if ((BLOCK_SIZE + s) % WORD) % page ≤ BLOCK_SIZE
            then format_header st.mem ((os.mmap_ret + (BLOCK_SIZE + s) % WORD) % WORD)
              (((BLOCK_SIZE + s) % WORD) % page) 0 1
            else st.mem)
          os.mmap_ret ((s + BLOCK_SIZE) % WORD)
          (if ((BLOCK_SIZE + s) % WORD) % page ≤ BLOCK_SIZE
            then (os.mmap_ret + (BLOCK_SIZE + s) % WORD) % WORD else 0) 0 }) := by
  by_cases hrem : ((BLOCK_SIZE + s) % WORD) % page ≤ BLOCK_SIZE
  · simp only [create_big_block, hs, hmap, hrem, ↓reduceIte]
    rfl
  · simp only [create_big_block, hs, hmap, hrem, ↓reduceIte]
    rfl

/-- Fields of the block, and of the remainder block, that `create_big_block`
formats inside the address space. -/
theorem create_big_block_fields (page : Nat) (os : OS) (st : State) (s : Nat) (hs : 0 < s)
    (hmap : os.mmap_ret ≠ FAILED) (hfit : os.mmap_ret + BLOCK_SIZE + s < WORD) :
    ∃ st1, create_big_block page os st s = Res.ok (os.mmap_ret, st1) ∧
      hdr_free st1.mem os.mmap_ret = 0 ∧
      ((BLOCK_SIZE + s) % page ≤ BLOCK_SIZE →
        hdr_next st1.mem os.mmap_ret = os.mmap_ret + BLOCK_SIZE + s ∧
        hdr_free st1.mem (os.mmap_ret + BLOCK_SIZE + s) = 1 ∧
        hdr_size st1.mem (os.mmap_ret + BLOCK_SIZE + s) = (BLOCK_SIZE + s) % page ∧
        hdr_next st1.mem (os.mmap_ret + BLOCK_SIZE + s) = 0) ∧
      (BLOCK_SIZE < (BLOCK_SIZE + s) % page → hdr_next st1.mem os.mmap_ret = 0) := by
  have hs0 : s ≠ 0 := by omega
  have e1 : (BLOCK_SIZE + s) % WORD = BLOCK_SIZE + s := Nat.mod_eq_of_lt (by omega)
  have e2 : (os.mmap_ret + (BLOCK_SIZE + s)) % WORD = os.mmap_ret + BLOCK_SIZE + s := by
    rw [← Nat.add_assoc]
    exact Nat.mod_eq_of_lt hfit
  have hW : (0 : Nat) < WORD := by unfold WORD; omega
  refine ⟨_, create_big_block_eq page os st s hs0 hmap, ?_, ?_, ?_⟩
  · show hdr_free (format_header _ _ _ _ _) os.mmap_ret = 0
    rw [format_header_free]
  · intro hrem
    simp only [e1, e2, if_pos hrem]
    have hfar : ∀ x, os.mmap_ret + BLOCK_SIZE + s ≤ x →
        format_header (format_header st.mem (os.mmap_ret + BLOCK_SIZE + s)
          ((BLOCK_SIZE + s) % page) 0 1) os.mmap_ret ((s + BLOCK_SIZE) % WORD)
          (os.mmap_ret + BLOCK_SIZE + s) 0 x =
        format_header st.mem (os.mmap_ret + BLOCK_SIZE + s) ((BLOCK_SIZE + s) % page) 0 1 x := by
      intro x hx
      unfold BLOCK_SIZE at hx
      exact format_header_outside _ _ _ _ _ x (by omega)
    have hremW : (BLOCK_SIZE + s) % page < WORD := by
      unfold BLOCK_SIZE WORD at *
      omega
    refine ⟨?_, ?_, ?_, ?_⟩
    · rw [format_header_next]
      exact Nat.mod_eq_of_lt hfit
    · rw [hdr_free_congr _ _ _ (fun x h1 h2 => by rw [hfar x (by omega)]),
        format_header_free]
    · rw [hdr_size_congr _ _ _ (fun x h1 h2 => by rw [hfar x (by omega)]),
        format_header_size]
      exact Nat.mod_eq_of_lt hremW
    · rw [hdr_next_congr _ _ _ (fun x h1 h2 => by rw [hfar x (by omega)]),
        format_header_next]
      exact Nat.zero_mod _
  · intro hrem
    simp only [e1, if_neg (Nat.not_le.mpr hrem)]
    rw [format_header_next]
    exact Nat.zero_mod _

/-- The carving rule, and the append on a well-formed chain: for `s > 0` and a
mapping at `M` that lies inside the address space,
with `remainder = (BLOCK_SIZE + s) mod page`, `create_big_block(s)` returns the
block at `M` with `free == 0`. When `remainder <= BLOCK_SIZE` its `next` is the
block at `M + BLOCK_SIZE + s`, which has `free == 1`, `size == remainder`
(hence at most `BLOCK_SIZE`) and `next == NULL`; when `remainder > BLOCK_SIZE`
its `next` is `NULL`. When `mymalloc(s)` takes this path on a chain `l` (no
block fits, headers apart, backend memory unused) and a remainder is carved,
the chain afterwards is `l` followed by the block at `M` and then the remainder
block, which is the last block. -/
theorem remainder_carving (page : Nat) (os : OS) (fuel : Nat) (st : State) (s : Nat)
    (hs : 0 < s) (hmap : os.mmap_ret ≠ FAILED) (hfit : os.mmap_ret + BLOCK_SIZE + s < WORD) :
    ∃ st1, create_big_block page os st s = Res.ok (os.mmap_ret, st1) ∧
      hdr_free st1.mem os.mmap_ret = 0 ∧
      ((BLOCK_SIZE + s) % page ≤ BLOCK_SIZE →
        hdr_next st1.mem os.mmap_ret = os.mmap_ret + BLOCK_SIZE + s ∧
        hdr_free st1.mem (os.mmap_ret + BLOCK_SIZE + s) = 1 ∧
        hdr_size st1.mem (os.mmap_ret + BLOCK_SIZE + s) = (BLOCK_SIZE + s) % page ∧
        hdr_next st1.mem (os.mmap_ret + BLOCK_SIZE + s) = 0 ∧
        hdr_size st1.mem (os.mmap_ret + BLOCK_SIZE + s) ≤ BLOCK_SIZE) ∧
      (BLOCK_SIZE < (BLOCK_SIZE + s) % page → hdr_next st1.mem os.mmap_ret = 0) ∧
      (∀ l p st2, Typed os st → Chain st.mem st.base_ptr l → l ≠ [] → l.Pairwise Sep →
        FreshFor page os st s l → l.length < fuel → (∀ x ∈ l, ¬ Fits st.mem s x) →
        BLOCK_SIZE ≤ page → page ≤ BLOCK_SIZE + s → (BLOCK_SIZE + s) % page ≤ BLOCK_SIZE →
        mymalloc page os fuel st s = Res.ok (p, st2) →
        p = os.mmap_ret + BLOCK_SIZE ∧
        Chain st2.mem st2.base_ptr (l ++ [os.mmap_ret, os.mmap_ret + BLOCK_SIZE + s]) ∧
        hdr_free st2.mem (os.mmap_ret + BLOCK_SIZE + s) = 1 ∧
        hdr_size st2.mem (os.mmap_ret + BLOCK_SIZE + s) = (BLOCK_SIZE + s) % page) := by
  obtain ⟨st1, hcr, hfree, hcarve, hnone⟩ := create_big_block_fields page os st s hs hmap hfit
  refine ⟨st1, hcr, hfree, ?_, hnone, ?_⟩
  · intro hrem
    obtain ⟨h1, h2, h3, h4⟩ := hcarve hrem
    exact ⟨h1, h2, h3, h4, by rw [h3]; exact hrem⟩
  · intro l p st2 hty hc hne hsep hfresh hfuel hmiss hpage hge hrem hr
    have e1 : (BLOCK_SIZE + s) % WORD = BLOCK_SIZE + s := Nat.mod_eq_of_lt (by omega)
    obtain ⟨block, st0, rest, hcreate, hb, hbW, hp, hnew, hfr, hst2, hchain, _, _, _, _⟩ :=
      mymalloc_miss page os fuel st s l p st2 hty hc hne hsep hfresh hpage hs (by omega)
        hfuel hmiss hr
    rw [if_pos (by rw [e1]; exact hge), hcr] at hcreate
    cases hcreate
    obtain ⟨h1, h2, h3, h4⟩ := hcarve hrem
    have hown : Chain st1.mem os.mmap_ret [os.mmap_ret, os.mmap_ret + BLOCK_SIZE + s] :=
      ⟨rfl, hb, h1, by omega, h4⟩
    have hrest : os.mmap_ret :: rest = [os.mmap_ret, os.mmap_ret + BLOCK_SIZE + s] :=
      Path.unique hnew hown
    rw [hrest] at hchain hfr
    have hlast : l.getLast hne ∈ l := List.getLast_mem hne
    have hsepR : Sep (os.mmap_ret + BLOCK_SIZE + s) (l.getLast hne) := by
      have := hfr _ hlast (os.mmap_ret + BLOCK_SIZE + s) (by simp)
      unfold Sep at this ⊢
      omega
    have hR := set_next_fields_sep st1.mem (l.getLast hne) os.mmap_ret _ hsepR
    refine ⟨?_, hchain, ?_, ?_⟩
    · rw [hp]
      exact Nat.mod_eq_of_lt (by omega)
    · rw [hst2]
      exact hR.2.2.trans h2
    · rw [hst2]
      exact hR.1.trans h3

theorem remainder_carving_witness :
    ∃ st1, create_big_block 4096 os_demo (state_of scnB1) 4080 = Res.ok (os_demo.mmap_ret, st1) ∧
      hdr_free st1.mem os_demo.mmap_ret = 0 ∧
      ((BLOCK_SIZE + 4080) % 4096 ≤ BLOCK_SIZE →
        hdr_next st1.mem os_demo.mmap_ret = os_demo.mmap_ret + BLOCK_SIZE + 4080 ∧
        hdr_free st1.mem (os_demo.mmap_ret + BLOCK_SIZE + 4080) = 1 ∧
        hdr_size st1.mem (os_demo.mmap_ret + BLOCK_SIZE + 4080) = (BLOCK_SIZE + 4080) % 4096 ∧
        hdr_next st1.mem (os_demo.mmap_ret + BLOCK_SIZE + 4080) = 0 ∧
        hdr_size st1.mem (os_demo.mmap_ret + BLOCK_SIZE + 4080) ≤ BLOCK_SIZE) ∧
      (BLOCK_SIZE < (BLOCK_SIZE + 4080) % 4096 → hdr_next st1.mem os_demo.mmap_ret = 0) ∧
      (∀ l p st2, Typed os_demo (state_of scnB1) →
        Chain (state_of scnB1).mem (state_of scnB1).base_ptr l → l ≠ [] → l.Pairwise Sep →
        FreshFor 4096 os_demo (state_of scnB1) 4080 l → l.length < 10 →
        (∀ x ∈ l, ¬ Fits (state_of scnB1).mem 4080 x) →
        BLOCK_SIZE ≤ 4096 → 4096 ≤ BLOCK_SIZE + 4080 → (BLOCK_SIZE + 4080) % 4096 ≤ BLOCK_SIZE →
        mymalloc 4096 os_demo 10 (state_of scnB1) 4080 = Res.ok (p, st2) →
        p = os_demo.mmap_ret + BLOCK_SIZE ∧
        Chain st2.mem st2.base_ptr
          (l ++ [os_demo.mmap_ret, os_demo.mmap_ret + BLOCK_SIZE + 4080]) ∧
        hdr_free st2.mem (os_demo.mmap_ret + BLOCK_SIZE + 4080) = 1 ∧
        hdr_size st2.mem (os_demo.mmap_ret + BLOCK_SIZE + 4080) = (BLOCK_SIZE + 4080) % 4096) :=
  remainder_carving 4096 os_demo 10 (state_of scnB1) 4080 (by decide) (by decide) (by decide)

/-! ## Ownership -/

theorem Path.mem_lt {m : Mem} : ∀ {a : Nat} {l : List Nat} {b : Nat},
    Path m a l b → a < WORD → ∀ x ∈ l, x < WORD
  | _, [], _, _, _, x, hx => by cases hx
  | a, y :: l, _, h, ha, x, hx => by
    rcases List.mem_cons.1 hx with rfl | hx
    · rw [← h.1]; exact ha
    · exact Path.mem_lt h.2.2 (read64_lt _ _) x hx

theorem ptr_inj (a b : Nat) (ha : a < WORD) (hb : b < WORD)
    (h : (a + BLOCK_SIZE) % WORD = (b + BLOCK_SIZE) % WORD) : a = b := by
  rw [← block_of_ptr a ha, ← block_of_ptr b hb, h]

/-- Where the block behind a pointer returned by `mymalloc(n)` comes from: it
was a free block of the chain, or it was not in the chain; afterwards it is
allocated and large enough. -/
theorem mymalloc_origin (page : Nat) (os : OS) (fuel : Nat) (st : State) (n : Nat)
    (l : List Nat) (p : Nat) (st1 : State) (hty : Typed os st)
    (hc : Chain st.mem st.base_ptr l) (hsep : l.Pairwise Sep)
    (hfresh : FreshFor page os st n l) (hpage : BLOCK_SIZE ≤ page) (hn : 0 < n)
    (hnW : n < WORD) (hfuel : l.length < fuel)
    (hr : mymalloc page os fuel st n = Res.ok (p, st1)) :
    ∃ B, B ≠ 0 ∧ B < WORD ∧ p = (B + BLOCK_SIZE) % WORD ∧
      ((B ∈ l ∧ hdr_free st.mem B = 1) ∨ B ∉ l) ∧
      (∀ y, B + 16 ≤ y → y < B + 20 → st1.mem y = 0) ∧ hdr_size st1.mem B ≥ n := by
  by_cases hne : l = []
  · obtain ⟨B, pre, h1, h2, h3, _, _, _, h7, h8, _⟩ :=
      mymalloc_post page os fuel st n l p st1 hty hc hsep hfresh hpage hn hnW hfuel hr
    exact ⟨B, h1, h2, h3, Or.inr (by rw [hne]; simp), h7, h8⟩
  · rcases split_first_fit st.mem n l with hmiss | ⟨pre, b, post, h1, h2, h3⟩
    · obtain ⟨block, _, _, _, hb, hbW, hp, _, hfr, _, _, _, _, hzero, hsize⟩ :=
        mymalloc_miss page os fuel st n l p st1 hty hc hne hsep hfresh hpage hn hnW hfuel
          hmiss hr
      refine ⟨block, hb, hbW, hp, Or.inr ?_, hzero, hsize⟩
      intro hmem
      have := hfr block hmem block (by simp)
      unfold Sep BLOCK_SIZE at this
      omega
    · subst h1
      rw [mymalloc_hit page os fuel st n b pre post hc hn h2 h3 hfuel] at hr
      cases hr
      have hmem : b ∈ pre ++ b :: post := by simp
      refine ⟨b, Path.ne_zero hc b hmem, Path.mem_lt hc hty.1 b hmem, rfl,
        Or.inl ⟨hmem, h2.2⟩, fun y a1 a2 => set_free_zero_bytes st.mem b y a1 a2, ?_⟩
      show hdr_size (set_free st.mem b 0) b ≥ n
      rw [hdr_size_congr st.mem _ b (fun y a c => by
        rw [set_free_outside _ _ _ _ (by omega)])]
      exact h2.1

/-- Ownership on a well-formed state: in a state whose chain `l` is finite
with headers apart from each other, with a backend whose new headers overlap no
header of the chain, a pointer `p` returned by
`mymalloc(n)`, or non-null by `mycalloc`, is `block + 1` for a block that was
in the chain with `free == 1` right before the call or was not in the chain;
after the call that block has `free == 0` and size at least the request; and
`p` differs from the pointer of every chain block that was allocated before
the call. -/
theorem unique_ownership (page : Nat) (os : OS) (fuel : Nat) (st : State) (l : List Nat)
    (hty : Typed os st) (hc : Chain st.mem st.base_ptr l) (hsep : l.Pairwise Sep)
    (hpage : BLOCK_SIZE ≤ page) (hfuel : l.length < fuel) :
    (∀ n p st1, 0 < n → n < WORD → FreshFor page os st n l →
      mymalloc page os fuel st n = Res.ok (p, st1) →
      ∃ B, B ≠ 0 ∧ p = (B + BLOCK_SIZE) % WORD ∧
        ((B ∈ l ∧ hdr_free st.mem B = 1) ∨ B ∉ l) ∧
        hdr_free st1.mem B = 0 ∧ hdr_size st1.mem B ≥ n ∧
        ∀ x ∈ l, hdr_free st.mem x = 0 → p ≠ (x + BLOCK_SIZE) % WORD) ∧
    (∀ nmemb s p st1, FreshFor page os st ((nmemb * s) % WORD) l →
      mycalloc page os fuel st nmemb s = Res.ok (p, st1) → p ≠ 0 →
      ∃ B, B ≠ 0 ∧ p = (B + BLOCK_SIZE) % WORD ∧
        ((B ∈ l ∧ hdr_free st.mem B = 1) ∨ B ∉ l) ∧
        hdr_free st1.mem B = 0 ∧
        (B + BLOCK_SIZE < WORD → hdr_size st1.mem B ≥ (nmemb * s) % WORD) ∧
        ∀ x ∈ l, hdr_free st.mem x = 0 → p ≠ (x + BLOCK_SIZE) % WORD) := by
  have hdiff : ∀ B p, B < WORD → p = (B + BLOCK_SIZE) % WORD →
      ((B ∈ l ∧ hdr_free st.mem B = 1) ∨ B ∉ l) →
      ∀ x ∈ l, hdr_free st.mem x = 0 → p ≠ (x + BLOCK_SIZE) % WORD := by
    intro B p hBW hp horigin x hx hx0 hpx
    have hxB : B = x := ptr_inj B x hBW (Path.mem_lt hc hty.1 x hx) (hp ▸ hpx)
    subst hxB
    rcases horigin with ⟨_, h1⟩ | h
    · rw [hx0] at h1
      cases h1
    · exact h hx
  refine ⟨?_, ?_⟩
  · intro n p st1 hn hnW hfresh hr
    obtain ⟨B, hB0, hBW, hp, horigin, hzero, hsize⟩ :=
      mymalloc_origin page os fuel st n l p st1 hty hc hsep hfresh hpage hn hnW hfuel hr
    exact ⟨B, hB0, hp, horigin, hdr_free_of_zero_bytes st1.mem B hzero, hsize,
      hdiff B p hBW hp horigin⟩
  · intro nmemb s p st1 hfresh hr hp0
    unfold mycalloc at hr
    split at hr
    · cases hr
    · simp only [] at hr
      split at hr
      · cases hr
      · rename_i htot
        split at hr
        · rename_i q st0 hm
          split at hr
          · cases hr
            exact absurd rfl hp0
          · cases hr
            have hpos : 0 < (nmemb * s) % WORD := by omega
            have hlt : (nmemb * s) % WORD < WORD := Nat.mod_lt _ (by unfold WORD; omega)
            obtain ⟨B, hB0, hBW, hp, horigin, hzero, hsize⟩ :=
              mymalloc_origin page os fuel st _ l p st0 hty hc hsep hfresh hpage hpos hlt
                hfuel hm
            refine ⟨B, hB0, hp, horigin, ?_, ?_, hdiff B p hBW hp horigin⟩
            · apply hdr_free_of_zero_bytes
              intro y h1 h2
              show memset0 st0.mem p ((nmemb * s) % WORD) y = 0
              unfold memset0
              split
              · rfl
              · exact hzero y h1 h2
            · intro hno
              have hpB : p = B + BLOCK_SIZE := by rw [hp]; exact Nat.mod_eq_of_lt hno
              show hdr_size (memset0 st0.mem p ((nmemb * s) % WORD)) B ≥ (nmemb * s) % WORD
              rw [hdr_size_congr st0.mem _ B (fun y a c => by
                unfold memset0
                rw [if_neg (by unfold BLOCK_SIZE at hpB; omega)])]
              exact hsize
        · cases hr
        · cases hr

theorem unique_ownership_witness :
    (∀ n p st1, 0 < n → n < WORD → FreshFor 4096 os_demo scnA3 n [65536, 65660] →
      mymalloc 4096 os_demo 10 scnA3 n = Res.ok (p, st1) →
      ∃ B, B ≠ 0 ∧ p = (B + BLOCK_SIZE) % WORD ∧
        ((B ∈ [65536, 65660] ∧ hdr_free scnA3.mem B = 1) ∨ B ∉ [65536, 65660]) ∧
        hdr_free st1.mem B = 0 ∧ hdr_size st1.mem B ≥ n ∧
        ∀ x ∈ [65536, 65660], hdr_free scnA3.mem x = 0 → p ≠ (x + BLOCK_SIZE) % WORD) ∧
    (∀ nmemb s p st1, FreshFor 4096 os_demo scnA3 ((nmemb * s) % WORD) [65536, 65660] →
      mycalloc 4096 os_demo 10 scnA3 nmemb s = Res.ok (p, st1) → p ≠ 0 →
      ∃ B, B ≠ 0 ∧ p = (B + BLOCK_SIZE) % WORD ∧
        ((B ∈ [65536, 65660] ∧ hdr_free scnA3.mem B = 1) ∨ B ∉ [65536, 65660]) ∧
        hdr_free st1.mem B = 0 ∧
        (B + BLOCK_SIZE < WORD → hdr_size st1.mem B ≥ (nmemb * s) % WORD) ∧
        ∀ x ∈ [65536, 65660], hdr_free scnA3.mem x = 0 → p ≠ (x + BLOCK_SIZE) % WORD) :=
  unique_ownership 4096 os_demo 10 scnA3 [65536, 65660] (by decide) (by decide) (by decide)
    (by decide) (by decide)

/-! ## Null release, the size field, and blocks outside their region -/

/-- C12 (the code at the failing input): for `ptr = NULL` the header address
`ptr - BLOCK_SIZE` is `2^64 - 24`, which is not `NULL`, so
`assert(free_block != NULL)` passes; `myfree` goes on to read the `free` field
at that address and, finding 0 there, returns after storing 1 into it. -/
theorem myfree_null_passes_null_check :
    (0 + WORD - BLOCK_SIZE) % WORD = 18446744073709551592 ∧
    18446744073709551592 ≠ 0 ∧
    hdr_free (empty 65536).mem 18446744073709551592 = 0 ∧
    (∃ st1, myfree (empty 65536) 0 = Res.ok st1) ∧
    hdr_free (freed (myfree (empty 65536) 0)).mem 18446744073709551592 = 1 :=
  ⟨by decide, by decide, by decide, ⟨_, rfl⟩, by decide⟩

/-- C14 (the code at the failing input): `create_big_block(4080)` stores
`4080 + BLOCK_SIZE` in the `size` field of the block it returns, not `4080`;
`create_small_block(4080)` stores `4080`. -/
theorem create_big_block_size_field :
    ptr_of (create_big_block 4096 os_demo (state_of scnB1) 4080) = 1048576 ∧
    hdr_size (state_of (create_big_block 4096 os_demo (state_of scnB1) 4080)).mem 1048576 =
      4080 + BLOCK_SIZE ∧
    hdr_size (state_of (create_big_block 4096 os_demo (state_of scnB1) 4080)).mem 1048576 ≠
      4080 ∧
    ptr_of (create_small_block os_demo (state_of scnB1) 4080) = 65568 ∧
    hdr_size (state_of (create_small_block os_demo (state_of scnB1) 4080)).mem 65568 =
      4080 := by
  decide

/-- C15 (the code at the failing input): after `mymalloc(8); mymalloc(4072)`
with a 4096-byte page the remainder is `(24 + 4072) mod 4096 = 0`, and the
chain ends in a remainder block whose size is 0. -/
theorem zero_size_remainder_block :
    (BLOCK_SIZE + 4072) % WORD % 4096 = 0 ∧
    ptr_of scnB1 = 65560 ∧ ptr_of scnC2 = 1048600 ∧
    Chain (state_of scnC2).mem (state_of scnC2).base_ptr [65536, 1048576, 1052672] ∧
    hdr_size (state_of scnC2).mem 1052672 = 0 ∧ hdr_free (state_of scnC2).mem 1052672 = 1 := by
  decide

/-- C17 (the code at the failing input): `create_big_block(4072)` with a
4096-byte page obtains the mapping `[1048576, 1052672)`. The remainder block it
formats has its header at `1052672`, the first byte after the mapping, and the
`size` bytes that follow the header of the returned block end at `1052696`,
also after the mapping. -/
theorem blocks_leave_their_mapping :
    4096 ≥ 3 * BLOCK_SIZE ∧
    ptr_of (create_big_block 4096 os_demo (empty 65536) 4072) = 1048576 ∧
    (state_of (create_big_block 4096 os_demo (empty 65536) 4072)).maps = [(1048576, 4096)] ∧
    mapping_end 4096 1048576 4096 = 1052672 ∧
    hdr_next (state_of (create_big_block 4096 os_demo (empty 65536) 4072)).mem 1048576 =
      1052672 ∧
    hdr_free (state_of (create_big_block 4096 os_demo (empty 65536) 4072)).mem 1052672 = 1 ∧
    1048576 + BLOCK_SIZE +
      hdr_size (state_of (create_big_block 4096 os_demo (empty 65536) 4072)).mem 1048576 =
      1052696 ∧
    1052696 > mapping_end 4096 1048576 4096 := by
  decide

/-- C19 (the code at the failing input): in scenario E the chain is
`[65536, 1048576, 1052680, 65568]` before `mycalloc(1, 4100)`. The call
succeeds by reusing the block at `1048576`, whose size field is `4104`, and
its zero-fill wipes the header of the block at `1052680`: that block's size
goes from 8 to 0 and its `next` to `NULL`, so the chain afterwards is
`[65536, 1048576, 1052680]` and the block at `65568` is no longer reachable. -/
theorem zero_fill_cuts_chain :
    Chain scnE2.mem scnE2.base_ptr [65536, 1048576, 1052680, 65568] ∧
    hdr_size scnE2.mem 1052680 = 8 ∧
    ptr_of scnE3 = 1048600 ∧
    Chain (state_of scnE3).mem (state_of scnE3).base_ptr [65536, 1048576, 1052680] ∧
    hdr_size (state_of scnE3).mem 1052680 = 0 ∧
    ¬ ([65536, 1048576, 1052680, 65568] <+: [65536, 1048576, 1052680]) := by
  decide

/-! ## Cycles -/

/-- On a finite chain the fit search returns, given fuel for the whole chain. -/
theorem get_next_fit_loop_returns {m : Mem} {s a : Nat} {l : List Nat} {fuel : Nat}
    (hc : Chain m a l) (hf : l.length < fuel) :
    ∃ b, get_next_fit_loop fuel m a s = Res.ok b := by
  rcases split_first_fit m s l with hn | ⟨pre, b, post, h1, h2, h3⟩
  · exact ⟨0, get_next_fit_loop_miss hc hn hf⟩
  · subst h1
    obtain ⟨c, hp, hq⟩ := Path.split hc
    have hcb : c = b := hq.1
    subst hcb
    exact ⟨c, get_next_fit_loop_hit hp h3 hq.2.1 h2 (by simp at hf; omega)⟩

/-- Two blocks that point at each other and do not fit keep the fit search
running for ever. -/
theorem get_next_fit_loop_cycle (m : Mem) (s a b : Nat) (ha : a ≠ 0) (hb : b ≠ 0)
    (hfa : ¬ Fits m s a) (hfb : ¬ Fits m s b) (hab : hdr_next m a = b)
    (hba : hdr_next m b = a) :
    ∀ fuel, get_next_fit_loop fuel m a s = Res.diverge ∧
      get_next_fit_loop fuel m b s = Res.diverge := by
  have hfa1 : ¬ (hdr_size m a ≥ s ∧ hdr_free m a = 1) := hfa
  have hfb1 : ¬ (hdr_size m b ≥ s ∧ hdr_free m b = 1) := hfb
  intro fuel
  induction fuel with
  | zero => exact ⟨rfl, rfl⟩
  | succ k ih =>
    constructor
    · rw [get_next_fit_loop, if_neg ha, if_neg hfa1, hab]
      exact ih.2
    · rw [get_next_fit_loop, if_neg hb, if_neg hfb1, hba]
      exact ih.1

/-- Two blocks that point at each other keep the tail search of
`add_block_at_end` running for ever. -/
theorem add_block_loop_cycle (m : Mem) (a b : Nat) (ha : a ≠ 0) (hb : b ≠ 0)
    (hab : hdr_next m a = b) (hba : hdr_next m b = a) :
    ∀ fuel, add_block_loop fuel m a = Res.diverge ∧ add_block_loop fuel m b = Res.diverge := by
  intro fuel
  induction fuel with
  | zero => exact ⟨rfl, rfl⟩
  | succ k ih =>
    constructor
    · rw [add_block_loop, if_pos (by rw [hab]; exact hb), hab]
      exact ih.2
    · rw [add_block_loop, if_pos (by rw [hba]; exact ha), hba]
      exact ih.1

/-- C20 (the code at the failing input): in scenario D the two mappings
`[1052672, 1056768)` and `[1048576, 1052672)` are disjoint, yet the remainder
block of the second call is formatted at `1052672`, on top of the header of the
first mapping's block. After the call the blocks at `1052672` and `1048576`
point at each other: the walk from `base_ptr` comes back to `1052672`, no
finite chain exists, and the loops of `get_next_fit_block` (for a request of
16 bytes) and of `add_block_at_end` never finish, whatever the fuel. -/
theorem adjacent_mappings_close_a_cycle :
    (state_of scnD2).maps = [(1052672, 4096), (1048576, 4096)] ∧
    mapping_end 4096 1048576 4096 ≤ 1052672 ∧
    ptr_of scnD1 = 1052672 + BLOCK_SIZE ∧ ptr_of scnD2 = 1048576 + BLOCK_SIZE ∧
    Path (state_of scnD2).mem (state_of scnD2).base_ptr [65536, 1052672, 1048576] 1052672 ∧
    (¬ ∃ l, Chain (state_of scnD2).mem (state_of scnD2).base_ptr l) ∧
    (∀ fuel, get_next_fit_block fuel (state_of scnD2) 16 = Res.diverge) ∧
    (∀ fuel, add_block_loop fuel (state_of scnD2).mem (state_of scnD2).base_ptr =
      Res.diverge) := by
  have hbase : (state_of scnD2).base_ptr = 65536 := by decide
  have hn0 : hdr_next (state_of scnD2).mem 65536 = 1052672 := by decide
  have hn1 : hdr_next (state_of scnD2).mem 1052672 = 1048576 := by decide
  have hn2 : hdr_next (state_of scnD2).mem 1048576 = 1052672 := by decide
  have hf0 : ¬ (hdr_size (state_of scnD2).mem 65536 ≥ 16 ∧
      hdr_free (state_of scnD2).mem 65536 = 1) := by decide
  have hf1 : ¬ Fits (state_of scnD2).mem 16 1052672 := by decide
  have hf2 : ¬ Fits (state_of scnD2).mem 16 1048576 := by decide
  have hsearch : ∀ fuel, get_next_fit_loop fuel (state_of scnD2).mem 65536 16 =
      Res.diverge := by
    intro fuel
    cases fuel with
    | zero => rfl
    | succ k =>
      rw [get_next_fit_loop, if_neg (by decide), if_neg hf0, hn0]
      exact (get_next_fit_loop_cycle _ 16 1052672 1048576 (by decide) (by decide) hf1 hf2
        hn1 hn2 k).1
  refine ⟨by decide, by decide, by decide, by decide, by decide, ?_, ?_, ?_⟩
  · rintro ⟨l, hl⟩
    rw [hbase] at hl
    obtain ⟨b, hb⟩ := @get_next_fit_loop_returns _ 16 _ _ _ hl (Nat.lt_succ_self _)
    rw [hsearch] at hb
    cases hb
  · intro fuel
    unfold get_next_fit_block
    rw [if_neg (by decide), hbase]
    exact hsearch fuel
  · intro fuel
    rw [hbase]
    cases fuel with
    | zero => rfl
    | succ k =>
      rw [add_block_loop, if_pos (by rw [hn0]; decide), hn0]
      exact (add_block_loop_cycle _ 1052672 1048576 (by decide) (by decide) hn1 hn2 k).1

/-! ## Calls on states with overlapped headers -/

/-- In the state scenario D reaches, the fit search for 16 bytes runs for
ever. -/
theorem scnD2_fit_search (fuel : Nat) :
    get_next_fit_loop fuel (state_of scnD2).mem 65536 16 = Res.diverge := by
  have hn0 : hdr_next (state_of scnD2).mem 65536 = 1052672 := by decide
  have hn1 : hdr_next (state_of scnD2).mem 1052672 = 1048576 := by decide
  have hn2 : hdr_next (state_of scnD2).mem 1048576 = 1052672 := by decide
  have hf0 : ¬ (hdr_size (state_of scnD2).mem 65536 ≥ 16 ∧
      hdr_free (state_of scnD2).mem 65536 = 1) := by decide
  have hf1 : ¬ Fits (state_of scnD2).mem 16 1052672 := by decide
  have hf2 : ¬ Fits (state_of scnD2).mem 16 1048576 := by decide
  cases fuel with
  | zero => rfl
  | succ k =>
    rw [get_next_fit_loop, if_neg (by decide), if_neg hf0, hn0]
    exact (get_next_fit_loop_cycle _ 16 1052672 1048576 (by decide) (by decide) hf1 hf2
      hn1 hn2 k).1

/-- C3 (the code at the failing input): scenario D is three calls from the
empty allocator, all of which return. In the state it reaches no block fits a
request of 16 bytes and `sbrk` would succeed, yet the first call of the round
trip, `p = mymalloc(16)`, never returns, whatever the fuel: the fit search
walks the cycle between the blocks at `1052672` and `1048576`. -/
theorem roundtrip_first_call_never_returns :
    ptr_of scnB1 = 65536 + BLOCK_SIZE ∧ ptr_of scnD1 = 1052672 + BLOCK_SIZE ∧
    ptr_of scnD2 = 1048576 + BLOCK_SIZE ∧ os_demo.sbrk_ok = true ∧
    (∀ x ∈ [65536, 1052672, 1048576], ¬ Fits (state_of scnD2).mem 16 x) ∧
    (∀ fuel, mymalloc 4096 os_demo fuel (state_of scnD2) 16 = Res.diverge) := by
  refine ⟨by decide, by decide, by decide, rfl, by decide, ?_⟩
  intro fuel
  have hbase : (state_of scnD2).base_ptr = 65536 := by decide
  have h := scnD2_fit_search fuel
  simp [mymalloc, get_next_fit_block, hbase, h]

/-- C5 (the code at the failing input): in scenario D the pointer `1052696`
is returned by the second call and never released. The third call formats its
remainder header on top of that pointer's block, setting its `free` flag to 1,
so the first `myfree(1052696)` fails the assertion `free_block->free == 0`. -/
theorem live_pointer_release_aborts :
    ptr_of scnD1 = 1052672 + BLOCK_SIZE ∧
    hdr_free (state_of scnD1).mem 1052672 = 0 ∧
    ptr_of scnD2 = 1048576 + BLOCK_SIZE ∧
    hdr_free (state_of scnD2).mem 1052672 = 1 ∧
    myfree (state_of scnD2) (1052672 + BLOCK_SIZE) = Res.abort := by
  refine ⟨by decide, by decide, by decide, by decide, ?_⟩
  have hb : (1052672 + BLOCK_SIZE + WORD - BLOCK_SIZE) % WORD = 1052672 := by decide
  have hf : hdr_free (state_of scnD2).mem 1052672 ≠ 0 := by decide
  unfold myfree
  simp only [hb]
  rw [if_neg (by decide), if_pos hf]

/-- C6 (the code at the failing input): in scenario G the block at `1048576`
lies in the two-page mapping `[1048576, 1056768)` and its size field is
`8162 + BLOCK_SIZE = 8186`. After `myfree`, `mycalloc(1, 8186)` reuses it and
calls `memset(1048600, 0, 8186)`, whose range ends at `1056786`: the bytes from
`1056768` on are not memory the process obtained. -/
theorem zero_fill_leaves_the_mapping :
    ptr_of scnG2 = 1048576 + BLOCK_SIZE ∧
    (state_of scnG2).maps = [(1048576, 8186)] ∧
    mapping_end 4096 1048576 8186 = 1056768 ∧
    hdr_size scnG3.mem 1048576 = 8162 + BLOCK_SIZE ∧
    ptr_of (mymalloc 4096 os_demo 10 scnG3 (1 * 8186)) = 1048600 ∧
    ptr_of scnG4 = 1048600 ∧
    (state_of scnG4).mem =
      memset0 (state_of (mymalloc 4096 os_demo 10 scnG3 (1 * 8186))).mem 1048600 8186 ∧
    (1048600 ≤ 1056768 ∧ 1056768 < 1048600 + 8186) ∧
    ¬ obtained 4096 (state_of scnG4) 1056768 ∧
    ¬ obtained 4096 (state_of scnG4) (1048600 + 8186 - 1) :=
  ⟨by decide, by decide, by decide, by decide, by decide, by decide, rfl, by decide,
    by decide, by decide⟩

/-- C11 (the code at the failing input): in scenario F, for
`q = mymalloc(2^64 - 24)` the sum `s + BLOCK_SIZE` wraps to 0, so `sbrk(0)`
leaves the break at `65568` and the block of `q` is formatted there. `q` is not
released; the next `mymalloc(8)` finds no fit, formats its block at the same
break and returns `65592`, the value of `q`. -/
theorem outstanding_pointer_returned_again :
    18446744073709551592 < WORD ∧ (18446744073709551592 + BLOCK_SIZE) % WORD = 0 ∧
    ptr_of scnF1 = 65568 + BLOCK_SIZE ∧ (state_of scnF1).brk = 65568 ∧
    Chain (state_of scnF1).mem (state_of scnF1).base_ptr [65536, 65568] ∧
    hdr_free (state_of scnF1).mem 65568 = 0 ∧
    (∀ x ∈ [65536, 65568], ¬ Fits (state_of scnF1).mem 8 x) ∧
    ptr_of scnF2 = 65568 + BLOCK_SIZE ∧ ptr_of scnF2 = ptr_of scnF1 := by
  decide

/-- C16 (the code at the failing input): in scenario D the chain before the
third call is `[65536, 1052672, 1056768]`, no block fits 4072 bytes, and the
call takes the mapping path with remainder 0. It returns; the remainder block
it carves, at `1048576 + BLOCK_SIZE + 4072 = 1052672`, is a block that was
already in the chain, and after the append its `next` is the new block at
`1048576`, not `NULL`: the remainder is not the last block, and the chain is
not the old chain followed by the new block and its remainder. -/
theorem remainder_not_last_block :
    Chain (state_of scnD1).mem (state_of scnD1).base_ptr [65536, 1052672, 1056768] ∧
    (∀ x ∈ [65536, 1052672, 1056768], ¬ Fits (state_of scnD1).mem 4072 x) ∧
    (BLOCK_SIZE + 4072) % WORD ≥ 4096 ∧ (BLOCK_SIZE + 4072) % 4096 ≤ BLOCK_SIZE ∧
    ptr_of scnD2 = 1048576 + BLOCK_SIZE ∧
    hdr_next (state_of scnD2).mem 1048576 = 1048576 + BLOCK_SIZE + 4072 ∧
    1048576 + BLOCK_SIZE + 4072 ∈ [65536, 1052672, 1056768] ∧
    hdr_next (state_of scnD2).mem (1048576 + BLOCK_SIZE + 4072) = 1048576 ∧
    ¬ Chain (state_of scnD2).mem (state_of scnD2).base_ptr
      ([65536, 1052672, 1056768] ++ [1048576, 1048576 + BLOCK_SIZE + 4072]) := by
  decide

/-- C18 (counterexample): inside the third call of scenario D the chain from
`base_ptr` is `C = [65536, 1052672]`, and the new block `b = 1048576`, which is
not in `C`, heads the chain `S = [1048576, 1052672]`, whose second block is the
last block of `C`. `add_block_at_end(b)` returns, and afterwards the blocks at
`1052672` and `1048576` point at each other: the chain from `base_ptr` is not
`C` followed by `S`. -/
theorem append_block_whose_chain_joins :
    Chain scnDpre.mem scnDpre.base_ptr [65536, 1052672] ∧
    1048576 ∉ [65536, 1052672] ∧
    Chain scnDpre.mem 1048576 [1048576, 1052672] ∧
    (∃ st2, add_block_at_end 10 scnDpre 1048576 = Res.ok st2) ∧
    hdr_next (freed (add_block_at_end 10 scnDpre 1048576)).mem 1052672 = 1048576 ∧
    hdr_next (freed (add_block_at_end 10 scnDpre 1048576)).mem 1048576 = 1052672 ∧
    ¬ Chain (freed (add_block_at_end 10 scnDpre 1048576)).mem
      (freed (add_block_at_end 10 scnDpre 1048576)).base_ptr
      ([65536, 1052672] ++ [1048576, 1052672]) :=
  ⟨by decide, by decide, by decide, ⟨_, rfl⟩, by decide, by decide, by decide⟩

end MyMalloc
